import Mathlib

set_option maxHeartbeats 1000000

/-!
Shallow embedding of the lakitu-dev-tools identifier and cron engines.

Sources: `src/lib/utils/uuid.ts` (UUID v4/v7 and ULID generation, formatting,
batch generation) and `src/lib/utils/cron.ts` (cron special strings, format
detection, validation, description, next-run computation, and the builder).

Modelling conventions:
- JavaScript numbers are `Nat`/`Int`; bit masks such as `& 0xff` become
  explicit `% 256`-style operations (exact over the domains in question).
- Strings are modelled through their character lists; helpers `jsTrim`,
  `jsToLower`, `jsSplitWs` model `String.prototype.trim`, `toLowerCase`
  and `split(/\s+/)` (the latter for already-trimmed input, which is how
  the source always calls it).
- The byte arrays filled by `crypto.getRandomValues` are modelled as
  functions `Nat → Nat` (index to byte), with boundedness `< 256` as an
  explicit hypothesis where a theorem needs it.
- Functions that can throw are modelled with `Except`; the third-party
  `cronstrue` and `cron-parser` libraries are modelled as a record of
  capabilities (`CronLibs`) passed explicitly.
-/

/-- The sixteen lowercase hex digit characters, as produced by JavaScript
`Number.prototype.toString(16)`. -/
def hexChars : List Char :=
  ['0', '1', '2', '3', '4', '5', '6', '7', '\x38', '9', 'a', 'b', 'c', 'd', 'e', 'f']

/-- Hex digit character of a nibble (`b.toString(16)` for `b < 16`). -/
def toHexChar (n : Nat) : Char := hexChars.getD n '0'

/-- Numeric value of a lowercase hex digit (left inverse of `toHexChar`). -/
def hexDigitVal (c : Char) : Nat := hexChars.indexOf c

/-- Two lowercase hex characters of one byte
(`b.toString(16).padStart(2, '0')` for `b < 256`). -/
def byteToHex (b : Nat) : List Char := [toHexChar (b / 16), toHexChar (b % 16)]

/-- Hex rendering of a byte list, as in
`Array.from(bytes).map((b) => b.toString(16).padStart(2, '0')).join('')`. -/
def bytesToHex (bs : List Nat) : List Char := (bs.map byteToHex).flatten

/-- The ten decimal digit characters. -/
def decChars : List Char := ['0', '1', '2', '3', '4', '5', '6', '7', '8', '9']

/-- Decimal digit character of a value below ten. -/
def decChar (d : Nat) : Char := decChars.getD d '0'

/-- Numeric value of a decimal digit character. -/
def decDigitVal (c : Char) : Nat := decChars.indexOf c

/-- Least-significant-first decimal digits, with explicit fuel so that the
function is structurally recursive (the fuel is always at least the
number, which suffices since the number shrinks strictly). -/
def natDigitsRevAux : Nat → Nat → List Nat
  | 0, _ => []
  | fuel + 1, n => if n = 0 then [] else n % 10 :: natDigitsRevAux fuel (n / 10)

/-- Least-significant-first decimal digits of a natural number
(empty for zero). -/
def natDigitsRev (n : Nat) : List Nat := natDigitsRevAux n n

/-- Decimal rendering of a natural number, modelling JavaScript
`String(n)` / template interpolation for nonnegative integers. -/
def natDecimal (n : Nat) : String :=
  if n = 0 then "0" else ⟨((natDigitsRev n).reverse).map decChar⟩

/-- Parse a non-empty all-digit character list as a decimal number. -/
def decOf (l : List Char) : Option Nat :=
  if l.isEmpty then none
  else if l.all (fun c => decChars.contains c) then
    some (l.foldl (fun a c => a * 10 + decDigitVal c) 0)
  else none

/-- Split a character list at every character satisfying `p`; adjacent
separators produce empty pieces (like JavaScript `split` on a single
character class). -/
def splitCharPred (p : Char → Bool) : List Char → List (List Char)
  | [] => [[]]
  | c :: rest =>
    match splitCharPred p rest with
    | [] => if p c then [[], []] else [[c]]
    | t :: ts => if p c then [] :: t :: ts else (c :: t) :: ts

/-- Split a character list on a separator character. -/
def splitChar (sep : Char) (l : List Char) : List (List Char) :=
  splitCharPred (fun c => c == sep) l

/-- Join character-list pieces with a single separator character
(JavaScript `Array.prototype.join` with a one-character separator). -/
def joinChar (sep : Char) : List (List Char) → List Char
  | [] => []
  | [t] => t
  | t :: ts => t ++ sep :: joinChar sep ts

/-- Whitespace tokenization of a character list: the non-empty pieces
between whitespace runs. -/
def wsTokens (l : List Char) : List (List Char) :=
  (splitCharPred Char.isWhitespace l).filter (fun t => !t.isEmpty)

/-- Model of `s.trim()`. -/
def jsTrim (s : String) : String :=
  ⟨((s.data.dropWhile Char.isWhitespace).reverse.dropWhile Char.isWhitespace).reverse⟩

/-- Model of `s.toLowerCase()` (ASCII, which is all the source feeds it). -/
def jsToLower (s : String) : String := ⟨s.data.map Char.toLower⟩

/-- Model of `s.split(/\s+/)` for an already-trimmed `s` (the only way the
source calls it): the whitespace-separated tokens, except that the empty
string yields one empty token, as in JavaScript. -/
def jsSplitWs (s : String) : List String :=
  if s.data.isEmpty then [""] else (wsTokens s.data).map (fun t => ⟨t⟩)

/-! ## Identifier generation (`src/lib/utils/uuid.ts`) -/

/-- Output formatting options for generated identifiers. -/
structure FormatOptions where
  uppercase : Bool
  hyphens : Bool

/-- Kind of identifier to generate. -/
inductive UUIDType where
  | uuidv4
  | uuidv7
  | ulid
deriving DecidableEq

/-- The sixteen bytes of a UUID v7, as assembled by `generateUUIDv7`:
bytes 0-5 are the 48-bit big-endian millisecond timestamp, byte 6 is
`(rnd & 0x0f) | 0x70`, byte 8 is `(rnd & 0x3f) | 0x80`, and the rest are
raw random bytes. -/
def uuidv7Bytes (timestamp : Nat) (rnd : Nat → Nat) : List Nat :=
  [timestamp / 2 ^ 40 % 256, timestamp / 2 ^ 32 % 256, timestamp / 2 ^ 24 % 256,
   timestamp / 2 ^ 16 % 256, timestamp / 2 ^ 8 % 256, timestamp % 256,
   0x70 + rnd 6 % 16, rnd 7, 0x80 + rnd 8 % 64,
   rnd 9, rnd 10, rnd 11, rnd 12, rnd 13, rnd 14, rnd 15]

/-- `l.slice(a, b)` on character lists. -/
def sliceChars (l : List Char) (a b : Nat) : List Char := (l.drop a).take (b - a)

/-- Hex-format a 16-byte list in the canonical 8-4-4-4-12 hyphenated
grouping, as the final lines of `generateUUIDv7` do. -/
def uuidStringOfBytes (bs : List Nat) : String :=
  let hex := bytesToHex bs
  ⟨sliceChars hex 0 8 ++ '-' :: sliceChars hex 8 12 ++ '-' :: sliceChars hex 12 16 ++
    '-' :: sliceChars hex 16 20 ++ '-' :: sliceChars hex 20 32⟩

/-- `generateUUIDv7`, with the clock sample and the random byte draw made
explicit parameters. -/
def generateUUIDv7 (timestamp : Nat) (rnd : Nat → Nat) : String :=
  uuidStringOfBytes (uuidv7Bytes timestamp rnd)

/-- Crockford's Base32 alphabet (excludes I, L, O, U), the source's
`ULID_ENCODING` string. -/
def ULID_ENCODING : List Char :=
  ['0', '1', '2', '3', '4', '5', '6', '7', '8', '9',
   'A', 'B', 'C', 'D', 'E', 'F', 'G', 'H', 'J', 'K', 'M', 'N', 'P', 'Q',
   'R', 'S', 'T', 'V', 'W', 'X', 'Y', 'Z']

/-- `ULID_ENCODING[n]` for `n < 32`. -/
def ulidChar (n : Nat) : Char := ULID_ENCODING.getD n '0'

/-- The timestamp-encoding loop of `generateULID`: `n` iterations of
prepending `ULID_ENCODING[ts & 0x1f]` and dividing `ts` by 32, so the
most significant base-32 digit ends up first. -/
def ulidTimestampChars : Nat → Nat → List Char
  | 0, _ => []
  | n + 1, ts => ulidTimestampChars n (ts / 32) ++ [ulidChar (ts % 32)]

/-- One iteration of the random-part loop of `generateULID`: append
`ULID_ENCODING[(byte >> 3) & 0x1f]`, and if the part is still shorter
than 16, also `ULID_ENCODING[((byte & 0x07) << 2) | ((next >> 6) & 0x03)]`. -/
def ulidRandomStep (rnd : Nat → Nat) (i : Nat) (acc : List Char) : List Char :=
  let byte := rnd i
  let acc1 := acc ++ [ulidChar (byte / 8 % 32)]
  if acc1.length < 16 then
    acc1 ++ [ulidChar (byte % 8 * 4 + rnd ((i + 1) % 10) / 64 % 4)]
  else acc1

/-- `generateULID`, with the clock sample and the random byte draw made
explicit parameters: 10 timestamp characters followed by the first 16
characters built from the 10 random bytes. -/
def generateULID (timestamp : Nat) (rnd : Nat → Nat) : String :=
  let timestampPart := ulidTimestampChars 10 timestamp
  let randomPart := ((List.range 10).foldl (fun acc i => ulidRandomStep rnd i acc) []).take 16
  ⟨timestampPart ++ randomPart⟩

/-- Re-insert the canonical hyphens into a 32-hex-character identifier,
as `formatID` does via four `slice` calls. -/
def insertUUIDHyphens (l : List Char) : List Char :=
  sliceChars l 0 8 ++ '-' :: sliceChars l 8 12 ++ '-' :: sliceChars l 12 16 ++
    '-' :: sliceChars l 16 20 ++ '-' :: sliceChars l 20 32

/-- `formatID`: hyphen removal/insertion followed by case folding. -/
def formatID (id : String) (options : FormatOptions) : String :=
  let d := id.data
  let r :=
    if !options.hyphens then d.filter (fun c => !(c == '-'))
    else if !d.contains '-' && d.length == 32 then insertUUIDHyphens d
    else d
  if options.uppercase then ⟨r.map Char.toUpper⟩ else ⟨r.map Char.toLower⟩

/-- `generateMultiple`: clamp the count to `[1, 100]`, generate that many
identifiers of the requested kind, and format each one.  The platform
collaborators are explicit: `clock i` and `entropy i` are the clock
sample and random bytes consumed by the `i`-th generation, and
`randomUUID i` is the `i`-th output of `crypto.randomUUID()`. -/
def generateMultiple (type : UUIDType) (count : Int) (options : FormatOptions)
    (clock : Nat → Nat) (entropy : Nat → Nat → Nat) (randomUUID : Nat → String) :
    List String :=
  let safeCount := max 1 (min 100 count)
  (List.range safeCount.toNat).map (fun i =>
    let id : String :=
      match type with
      | .uuidv4 => randomUUID i
      | .uuidv7 => generateUUIDv7 (clock i) (entropy i)
      | .ulid => generateULID (clock i) (entropy i)
    if type = .ulid then
      if options.uppercase then ⟨id.data.map Char.toUpper⟩ else ⟨id.data.map Char.toLower⟩
    else formatID id options)

/-! ## Timestamp extraction (spec-modelled)

The repository's timestamp extractor (`extractTimestamp` and its decode
helpers, imported from `$lib/utils/uuid` by the uuid route page) is not
present under `src/`; only its caller is.  The decode functions below are
therefore modelled from the spec (§4.1). -/

/-- Modelled from the spec: `decodeUUIDv7Timestamp` belongs to the
repository's timestamp extractor, which is absent from `src/` (only its
caller, the uuid route page, is present).  Per the spec it strips
hyphens and parses the first 12 hex characters as a big-endian unsigned
48-bit integer, with no validation of version or variant nibbles. -/
def decodeUUIDv7Timestamp (s : String) : Nat :=
  ((s.data.filter (fun c => !(c == '-'))).take 12).foldl
    (fun a c => a * 16 + hexDigitVal c) 0

/-- Case-insensitive Crockford digit value: the index of the uppercased
character in the alphabet, or `none` for an out-of-alphabet character. -/
def crockfordVal (c : Char) : Option Nat :=
  if ULID_ENCODING.contains c.toUpper then some (ULID_ENCODING.indexOf c.toUpper)
  else none

/-- Modelled from the spec: `decodeULIDTimestamp` belongs to the
repository's timestamp extractor, which is absent from `src/`.  Per the
spec it parses the first 10 characters against the Crockford alphabet
(case-insensitive), each contributing 5 bits, most significant first; an
out-of-alphabet character is a hard error, modelled as `none`. -/
def decodeULIDTimestamp (s : String) : Option Nat :=
  let cs := s.data.take 10
  if cs.length < 10 then none
  else cs.foldl (fun acc c => acc.bind (fun a => (crockfordVal c).map (fun v => a * 32 + v)))
    (some 0)

/-- Singular or plural relative-time wording for one unit, e.g.
`3 days ago` or `in 2 hours`. -/
def unitPhrase (future : Bool) (n : Nat) (unit : String) : String :=
  let noun := if n = 1 then unit else unit ++ "s"
  if future then "in " ++ natDecimal n ++ " " ++ noun
  else natDecimal n ++ " " ++ noun ++ " ago"

/-- The spec's claimed relative-time threshold table (§4.3), written out
from its words for comparison with the source's `getRelativeTime` below
(`diffMs` is decoded-instant minus now, in milliseconds): under 5 seconds
"just now", under 60 seconds a phrase in seconds, then minutes, hours,
days, weeks (under 5), months (under 12), else years, each unit obtained
from the previous by integer division, with singular/plural suffixes. -/
def relativeTimePhrase (diffMs : Int) : String :=
  let absMs := diffMs.natAbs
  let s := absMs / 1000
  let m := s / 60
  let h := m / 60
  let d := h / 24
  let w := d / 7
  let mo := d / 30
  let y := d / 365
  let future := decide (0 < diffMs)
  if s < 5 then "just now"
  else if s < 60 then unitPhrase future s "second"
  else if m < 60 then unitPhrase future m "minute"
  else if h < 24 then unitPhrase future h "hour"
  else if d < 7 then unitPhrase future d "day"
  else if w < 5 then unitPhrase future w "week"
  else if mo < 12 then unitPhrase future mo "month"
  else unitPhrase future y "year"

/-- The unit names the source passes to `Intl.RelativeTimeFormat`. -/
inductive TimeUnit where
  | second
  | minute
  | hour
  | day
  | week
  | month
  | year
deriving DecidableEq

/-- The string form of a time unit, for instantiating a formatter. -/
def timeUnitName : TimeUnit → String
  | TimeUnit.second => "second"
  | TimeUnit.minute => "minute"
  | TimeUnit.hour => "hour"
  | TimeUnit.day => "day"
  | TimeUnit.week => "week"
  | TimeUnit.month => "month"
  | TimeUnit.year => "year"

/-- `Math.round (a / b)` on the exact quotient, for positive `b`:
JavaScript rounds half toward positive infinity, the floor of the
quotient plus one half.  (The float rounding of the intermediate
quotient is not modelled.) -/
def jsRoundDiv (a b : Int) : Int := Int.fdiv (2 * a + b) (2 * b)

/-- `getRelativeTime` (`src/lib/utils/uuid.ts`): stage-wise `Math.round`
conversions of the signed millisecond difference (seconds from
milliseconds, minutes from seconds, hours from minutes, days from hours,
then weeks, months and years all from days), and the first unit whose
absolute value is under its threshold wins; the wording is produced by
the platform's `Intl.RelativeTimeFormat` with numeric "auto", modelled
as the function argument `rtf`. -/
def getRelativeTime (rtf : Int → TimeUnit → String) (diffMs : Int) : String :=
  let diffSeconds := jsRoundDiv diffMs 1000
  let diffMinutes := jsRoundDiv diffSeconds 60
  let diffHours := jsRoundDiv diffMinutes 60
  let diffDays := jsRoundDiv diffHours 24
  let diffWeeks := jsRoundDiv diffDays 7
  let diffMonths := jsRoundDiv diffDays 30
  let diffYears := jsRoundDiv diffDays 365
  if diffSeconds.natAbs < 60 then rtf diffSeconds TimeUnit.second
  else if diffMinutes.natAbs < 60 then rtf diffMinutes TimeUnit.minute
  else if diffHours.natAbs < 24 then rtf diffHours TimeUnit.hour
  else if diffDays.natAbs < 7 then rtf diffDays TimeUnit.day
  else if diffWeeks.natAbs < 4 then rtf diffWeeks TimeUnit.week
  else if diffMonths.natAbs < 12 then rtf diffMonths TimeUnit.month
  else rtf diffYears TimeUnit.year

/-! ## Cron engine (`src/lib/utils/cron.ts`) -/

/-- One entry of the `SPECIAL_STRINGS` table. -/
structure SpecialEntry where
  expression : String
  description : String
deriving DecidableEq

/-- The `SPECIAL_STRINGS` table. -/
def SPECIAL_STRINGS : List (String × SpecialEntry) :=
  [("@yearly", ⟨"0 0 1 1 *", "Run once a year at midnight on January 1st"⟩),
   ("@annually", ⟨"0 0 1 1 *", "Run once a year at midnight on January 1st"⟩),
   ("@monthly", ⟨"0 0 1 * *", "Run once a month at midnight on the 1st day"⟩),
   ("@weekly", ⟨"0 0 * * 0", "Run once a week at midnight on Sunday"⟩),
   ("@daily", ⟨"0 0 * * *", "Run once a day at midnight"⟩),
   ("@midnight", ⟨"0 0 * * *", "Run once a day at midnight"⟩),
   ("@hourly", ⟨"0 * * * *", "Run once an hour at the beginning of the hour"⟩),
   ("@reboot", ⟨"", "Run once at startup (not schedulable)"⟩)]

/-- Key lookup in `SPECIAL_STRINGS` (JavaScript property access on the
record object). -/
def lookupSpecial (key : String) : Option SpecialEntry := SPECIAL_STRINGS.lookup key

/-- `isSpecialString`: trim, lowercase, and test membership in the table. -/
def isSpecialString (expression : String) : Bool :=
  (lookupSpecial (jsToLower (jsTrim expression))).isSome

/-- `expandSpecialString`: the table entry's expression, with the
JavaScript `|| null` collapsing the empty `@reboot` expansion to `none`. -/
def expandSpecialString (expression : String) : Option String :=
  match lookupSpecial (jsToLower (jsTrim expression)) with
  | some e => if e.expression = "" then none else some e.expression
  | none => none

/-- `getSpecialStringDescription`, with the same `|| null` falsy collapse. -/
def getSpecialStringDescription (expression : String) : Option String :=
  match lookupSpecial (jsToLower (jsTrim expression)) with
  | some e => if e.description = "" then none else some e.description
  | none => none

/-- Cron format: 5-field (standard) or 6-field (with seconds). -/
inductive CronFormat where
  | fiveField
  | sixField
deriving DecidableEq

/-- `detectCronFormat`: special strings are 5-field; otherwise 6 or more
whitespace-separated parts mean 6-field. -/
def detectCronFormat (expression : String) : CronFormat :=
  let trimmed := jsTrim expression
  if isSpecialString trimmed then .fiveField
  else if (jsSplitWs trimmed).length ≥ 6 then .sixField
  else .fiveField

/-- The third-party capabilities the cron engine delegates to:
`cronstrue.toString` (with its verbose flag), `CronExpressionParser.parse`
used only for validation, and parse-plus-iteration producing next run
instants (as millisecond timestamps).  A thrown exception is an
`Except.error` carrying the message. -/
structure CronLibs where
  cronstrueToString : String → Bool → Except String String
  cronParserParse : String → Except String Unit
  cronParserNext : String → Nat → Except String (List Nat)

/-- `getCronDescription`: special-string description first (guarded by a
truthiness test), then the dead `@reboot` branch, then `cronstrue` with
verbose phrasing for the 6-field format; a library failure is re-thrown. -/
def getCronDescription (libs : CronLibs) (expression : String) : Except String String :=
  let trimmed := jsTrim expression
  let special : Option String :=
    if isSpecialString trimmed then
      match getSpecialStringDescription trimmed with
      | some desc => if desc = "" then none else some desc
      | none => none
    else none
  match special with
  | some desc => Except.ok desc
  | none =>
    if jsToLower trimmed = "@reboot" then Except.ok ("Run once at system startup")
    else libs.cronstrueToString trimmed (decide (detectCronFormat trimmed = .sixField))

/-- `getNextRunsFromExpression`: prepend a `0` seconds field to 5-field
expressions and delegate to the schedule iterator. -/
def getNextRunsFromExpression (libs : CronLibs) (expression : String) (count : Nat)
    (format : CronFormat) : Except String (List Nat) :=
  let expr := if format = .fiveField then "0 " ++ expression else expression
  libs.cronParserNext expr count

/-- `getNextRuns`: special strings expand first; a non-expandable special
string (`@reboot`) yields the empty run list. -/
def getNextRuns (libs : CronLibs) (expression : String) (count : Nat) :
    Except String (List Nat) :=
  let trimmed := jsTrim expression
  if isSpecialString trimmed then
    match expandSpecialString trimmed with
    | none => Except.ok []
    | some expanded => getNextRunsFromExpression libs expanded count .fiveField
  else getNextRunsFromExpression libs trimmed count (detectCronFormat trimmed)

/-- Result of `validateCronExpression`. -/
structure ValidationResult where
  valid : Bool
  error : Option String
deriving DecidableEq

/-- `validateCronExpression`: empty is invalid, special strings are valid,
otherwise both `cron-parser` (on the 6-field normalization) and
`cronstrue` must succeed; a caught exception's message becomes the error. -/
def validateCronExpression (libs : CronLibs) (expression : String) : ValidationResult :=
  let trimmed := jsTrim expression
  if trimmed = "" then ⟨false, some ("Expression is empty")⟩
  else if isSpecialString trimmed then ⟨true, none⟩
  else
    let format := detectCronFormat trimmed
    let expr := if format = .fiveField then "0 " ++ trimmed else trimmed
    match libs.cronParserParse expr with
    | Except.error e => ⟨false, some e⟩
    | Except.ok _ =>
      match libs.cronstrueToString trimmed false with
      | Except.error e => ⟨false, some e⟩
      | Except.ok _ => ⟨true, none⟩

/-- Options accepted by `parseCronExpression`. -/
structure ParseOptions where
  nextRunCount : Option Nat

/-- Result of `parseCronExpression`.  Run instants are millisecond
timestamps. -/
structure CronParseResult where
  valid : Bool
  description : Option String
  error : Option String
  nextRuns : Option (List Nat)
  format : CronFormat
  isSpecialString : Bool
  normalizedExpression : Option String
deriving DecidableEq

/-- `parseCronExpression`: trim, reject empty, validate, then compute the
description and next runs inside a try/catch whose failure produces an
invalid result carrying the exception message. -/
def parseCronExpression (libs : CronLibs) (expression : String)
    (options : ParseOptions) : CronParseResult :=
  let nextRunCount := options.nextRunCount.getD 5
  let trimmed := jsTrim expression
  if trimmed = "" then ⟨false, none, some ("Expression is empty"), none, .fiveField, false, none⟩
  else
    let isSpecial := isSpecialString trimmed
    let format := detectCronFormat trimmed
    let validation := validateCronExpression libs trimmed
    if validation.valid = false then ⟨false, none, validation.error, none, format, isSpecial, none⟩
    else
      match getCronDescription libs trimmed with
      | Except.error e => ⟨false, none, some e, none, format, isSpecial, none⟩
      | Except.ok description =>
        match getNextRuns libs trimmed nextRunCount with
        | Except.error e => ⟨false, none, some e, none, format, isSpecial, none⟩
        | Except.ok nextRuns =>
          ⟨true, some description, none, some nextRuns, format, isSpecial,
            if isSpecial then expandSpecialString trimmed else some trimmed⟩

/-! ## Cron builder (`src/lib/utils/cron.ts`) -/

/-- The discriminator of a builder field value. -/
inductive FieldValueType where
  | wildcard
  | specific
  | range
  | list
  | step
  | rangeStep
deriving DecidableEq

/-- A builder field value: a discriminator plus optional payload fields,
mirroring the source's interface of optionals. -/
structure FieldValue where
  type : FieldValueType
  specific : Option Nat
  rangeStart : Option Nat
  rangeEnd : Option Nat
  step : Option Nat
  listValues : Option (List Nat)
deriving DecidableEq

/-- `buildFieldValue` at the character level: `??`-defaults are 0 for
`specific`, `rangeStart` and `rangeEnd`, the empty list for `listValues`,
and 1 for `step`. -/
def buildFieldValueChars (value : FieldValue) : List Char :=
  match value.type with
  | .wildcard => ['*']
  | .specific => (natDecimal (value.specific.getD 0)).data
  | .range =>
    (natDecimal (value.rangeStart.getD 0)).data ++ '-' :: (natDecimal (value.rangeEnd.getD 0)).data
  | .list => joinChar ',' ((value.listValues.getD []).map (fun n => (natDecimal n).data))
  | .step => '*' :: '/' :: (natDecimal (value.step.getD 1)).data
  | .rangeStep =>
    (natDecimal (value.rangeStart.getD 0)).data ++ '-' ::
      ((natDecimal (value.rangeEnd.getD 0)).data ++ '/' :: (natDecimal (value.step.getD 1)).data)

/-- `buildFieldValue` as a string. -/
def buildFieldValue (value : FieldValue) : String := ⟨buildFieldValueChars value⟩

/-- `buildCronExpression`: serialize the first `expectedLength` field
values, pad with wildcards, and join with single spaces. -/
def buildCronExpression (fields : List FieldValue) (format : CronFormat) : String :=
  let expectedLength := if format = .sixField then 6 else 5
  let values := (fields.take expectedLength).map buildFieldValueChars
  let padded := values ++ List.replicate (expectedLength - values.length) ['*']
  ⟨joinChar ' ' padded⟩

/-- `getDefaultFieldValues`: an all-wildcard array of the format's length. -/
def getDefaultFieldValues (format : CronFormat) : List FieldValue :=
  let count := if format = .sixField then 6 else 5
  List.replicate count ⟨.wildcard, none, none, none, none, none⟩

/-- One cron field position: bounds and alias names. -/
structure CronField where
  name : String
  label : String
  min : Nat
  max : Nat
  altLabels : List String

/-- The `CRON_FIELDS_5` table. -/
def CRON_FIELDS_5 : List CronField :=
  [⟨"minute", "Minute", 0, 59, []⟩,
   ⟨"hour", "Hour", 0, 23, []⟩,
   ⟨"dayOfMonth", "Day of Month", 1, 31, []⟩,
   ⟨"month", "Month", 1, 12,
     ["JAN", "FEB", "MAR", "APR", "MAY", "JUN", "JUL", "AUG", "SEP", "OCT", "NOV", "DEC"]⟩,
   ⟨"dayOfWeek", "Day of Week", 0, 6,
     ["SUN", "MON", "TUE", "WED", "THU", "FRI", "SAT"]⟩]

/-- The `CRON_FIELDS_6` table: a seconds field before the 5-field table. -/
def CRON_FIELDS_6 : List CronField := ⟨"second", "Second", 0, 59, []⟩ :: CRON_FIELDS_5

/-! ## Spec-modelled cron field grammar

The repository delegates expression validation, description and iteration
to the third-party `cron-parser` and `cronstrue` packages, which are not
part of the repository.  The spec specifies their validation behavior as
the Cron Field Grammar (§4.4) applied field by field (§4.5 step 2); the
definitions below model that contract and are used to instantiate
`CronLibs` where a claim needs concrete library behavior. -/

/-- Modelled from the spec: acceptance of a single value token of the Cron
Field Grammar (§4.4) — an integer literal within `[min, max]`, or (for
month/weekday) a case-insensitive 3-letter alias. -/
def acceptsValueToken (f : CronField) (tok : List Char) : Bool :=
  match decOf tok with
  | some n => decide (f.min ≤ n) && decide (n ≤ f.max)
  | none => f.altLabels.contains ⟨tok.map Char.toUpper⟩

/-- Modelled from the spec: acceptance of a range token `a-b` with both
bounds within `[min, max]`.  Per the spec's note, a reversed range is not
specially rejected (an open question it flags about the reference
libraries), so no ordering check is made. -/
def acceptsRangeToken (f : CronField) (tok : List Char) : Bool :=
  match splitChar '-' tok with
  | [a, b] => acceptsValueToken f a && acceptsValueToken f b
  | _ => false

/-- Modelled from the spec: acceptance of a step denominator `n ≥ 1`. -/
def acceptsStepToken (tok : List Char) : Bool :=
  match decOf tok with
  | some n => decide (1 ≤ n)
  | none => false

/-- Modelled from the spec: acceptance of one field's token — wildcard,
list, step (`*/n` or `a-b/n`), range, or single value. -/
def acceptsFieldToken (f : CronField) (tok : List Char) : Bool :=
  if tok = ['*'] then true
  else if tok.contains ',' then (splitChar ',' tok).all (fun t => acceptsValueToken f t)
  else if tok.contains '/' then
    match splitChar '/' tok with
    | [l, r] => (l = ['*'] || acceptsRangeToken f l) && acceptsStepToken r
    | _ => false
  else if tok.contains '-' then acceptsRangeToken f tok
  else acceptsValueToken f tok

/-- Field table selected by token count: 6 or more tokens use the 6-field
table, fewer use the 5-field one. -/
def cronFieldsFor (n : Nat) : List CronField :=
  if n ≥ 6 then CRON_FIELDS_6 else CRON_FIELDS_5

/-- Modelled from the spec: validation of a whole expression by the Cron
Field Grammar — exactly one token per field of the detected format, each
accepted by its field (a missing trailing field is the spec's "empty
field" failure). -/
def grammarValidate (expression : String) : Bool :=
  let trimmed := jsTrim expression
  let toks := wsTokens trimmed.data
  let fields := cronFieldsFor toks.length
  toks.length == fields.length && (toks.zip fields).all (fun p => acceptsFieldToken p.2 p.1)

/-- Modelled from the spec: a `CronLibs` instance whose validation follows
the Cron Field Grammar, whose description is a deterministic non-empty
sentence, and whose iterator succeeds exactly on grammar-valid input. -/
def specLibs : CronLibs :=
  ⟨fun s _ =>
      if grammarValidate s then Except.ok ("Runs on the schedule " ++ jsTrim s ++ ".")
      else Except.error ("Invalid cron expression: " ++ s),
   fun s =>
      if grammarValidate s then Except.ok ()
      else Except.error ("Invalid cron expression: " ++ s),
   fun s _ =>
      if grammarValidate s then Except.ok []
      else Except.error ("Invalid cron expression: " ++ s)⟩

/-- Well-formedness of one builder field value for one cron field: exactly
the conditions under which its serialization is accepted by the Cron
Field Grammar (list values present and in bounds, numeric sub-values in
bounds, step at least 1). -/
def fieldValueWellFormed (f : CronField) (v : FieldValue) : Bool :=
  match v.type with
  | .wildcard => true
  | .specific => decide (f.min ≤ v.specific.getD 0 ∧ v.specific.getD 0 ≤ f.max)
  | .range =>
    decide (f.min ≤ v.rangeStart.getD 0 ∧ v.rangeStart.getD 0 ≤ f.max ∧
      f.min ≤ v.rangeEnd.getD 0 ∧ v.rangeEnd.getD 0 ≤ f.max)
  | .list =>
    !(v.listValues.getD []).isEmpty &&
      (v.listValues.getD []).all (fun n => decide (f.min ≤ n ∧ n ≤ f.max))
  | .step => decide (1 ≤ v.step.getD 1)
  | .rangeStep =>
    decide (f.min ≤ v.rangeStart.getD 0 ∧ v.rangeStart.getD 0 ≤ f.max ∧
      f.min ≤ v.rangeEnd.getD 0 ∧ v.rangeEnd.getD 0 ≤ f.max ∧ 1 ≤ v.step.getD 1)

/-- Well-formedness of a builder field-value array for a format: each
value within the format's field count is well-formed for its position. -/
def wellFormedFields (fields : List FieldValue) (format : CronFormat) : Bool :=
  let expectedLength := if format = .sixField then 6 else 5
  let fdefs := if format = .sixField then CRON_FIELDS_6 else CRON_FIELDS_5
  ((fields.take expectedLength).zip fdefs).all (fun p => fieldValueWellFormed p.2 p.1)

/-- All 22 characters that can appear as a hex digit in either case. -/
def hexDigitsAnyCase : List Char :=
  ['0', '1', '2', '3', '4', '5', '6', '7', '\x38', '9', 'a', 'b', 'c', 'd', 'e', 'f',
   'A', 'B', 'C', 'D', 'E', 'F']

/-- The lowercase image of the Crockford alphabet. -/
def crockfordLower : List Char :=
  ['0', '1', '2', '3', '4', '5', '6', '7', '\x38', '9',
   'a', 'b', 'c', 'd', 'e', 'f', 'g', 'h', 'j', 'k', 'm', 'n', 'p', 'q',
   'r', 's', 't', 'v', 'w', 'x', 'y', 'z']

/-- Canonical shape of a formatted UUID: with hyphens requested, 36
characters hyphenated at 8, 13, 18, 23 with hex digits elsewhere;
without, 32 bare hex characters and no hyphen. -/
def uuidFormatOK (s : String) : Bool → Prop
  | true =>
    s.length = 36 ∧ s.data[8]? = some '-' ∧ s.data[13]? = some '-' ∧
      s.data[18]? = some '-' ∧ s.data[23]? = some '-' ∧
      (s.data.filter (fun c => !(c == '-'))).length = 32 ∧
      ∀ c ∈ s.data, c = '-' ∨ c ∈ hexDigitsAnyCase
  | false =>
    s.length = 32 ∧ ¬('-' ∈ s.data) ∧ ∀ c ∈ s.data, c ∈ hexDigitsAnyCase

/-- Canonical shape of a formatted ULID: 26 characters from the Crockford
alphabet in the case selected by the uppercase flag, never a hyphen. -/
def ulidFormatOK (s : String) : Bool → Prop
  | true => s.length = 26 ∧ ¬('-' ∈ s.data) ∧ ∀ c ∈ s.data, c ∈ ULID_ENCODING
  | false => s.length = 26 ∧ ¬('-' ∈ s.data) ∧ ∀ c ∈ s.data, c ∈ crockfordLower

/-! ## Generic helper lemmas -/

theorem getD_mem_of_mem {α : Type} (l : List α) (d : α) (hd : d ∈ l) (n : Nat) :
    l.getD n d ∈ l := by
  rw [List.getD_eq_getElem?_getD]
  by_cases h : n < l.length
  · rw [List.getElem?_eq_getElem h]
    exact List.getElem_mem h
  · rw [List.getElem?_eq_none (by omega)]
    exact hd

theorem toHexChar_mem (n : Nat) : toHexChar n ∈ hexChars :=
  getD_mem_of_mem hexChars '0' (by decide) n

theorem ulidChar_mem (n : Nat) : ulidChar n ∈ ULID_ENCODING :=
  getD_mem_of_mem ULID_ENCODING '0' (by decide) n

theorem decChar_mem (n : Nat) : decChar n ∈ decChars :=
  getD_mem_of_mem decChars '0' (by decide) n

theorem contains_eq_false_of_forall_ne {l : List Char} {x : Char}
    (h : ∀ c ∈ l, c ≠ x) : l.contains x = false := by
  cases hc : l.contains x
  · rfl
  · exact absurd rfl (h x (List.elem_iff.mp hc))

theorem mem_of_contains_eq_true {l : List Char} {x : Char}
    (h : l.contains x = true) : x ∈ l := List.elem_iff.mp h

theorem contains_eq_true_of_mem {l : List Char} {x : Char} (h : x ∈ l) :
    l.contains x = true := List.elem_iff.mpr h

/-! ## Hex digit and decimal digit facts -/

theorem hexDigitVal_toHexChar : ∀ d < 16, hexDigitVal (toHexChar d) = d := by decide

theorem hexChars_ne_hyphen : ∀ c ∈ hexChars, c ≠ '-' := by decide

theorem toHexChar_ne_hyphen (n : Nat) : toHexChar n ≠ '-' :=
  hexChars_ne_hyphen _ (toHexChar_mem n)

theorem toHexChar_beq_hyphen (n : Nat) : (toHexChar n == '-') = false :=
  beq_eq_false_iff_ne.mpr (toHexChar_ne_hyphen n)

theorem crockfordVal_ulidChar : ∀ d < 32, crockfordVal (ulidChar d) = some d := by decide

theorem decDigitVal_decChar : ∀ d < 10, decDigitVal (decChar d) = d := by decide

theorem natDigitsRevAux_irrel : ∀ (f1 f2 n : Nat), n ≤ f1 → n ≤ f2 →
    natDigitsRevAux f1 n = natDigitsRevAux f2 n := by
  intro f1
  induction f1 with
  | zero =>
    intro f2 n h1 _
    have : n = 0 := by omega
    subst this
    cases f2 with
    | zero => rfl
    | succ m => simp [natDigitsRevAux]
  | succ m ih =>
    intro f2 n h1 h2
    by_cases hn : n = 0
    · subst hn
      cases f2 with
      | zero => simp [natDigitsRevAux]
      | succ k => simp [natDigitsRevAux]
    · cases f2 with
      | zero => omega
      | succ k =>
        rw [natDigitsRevAux, natDigitsRevAux, if_neg hn, if_neg hn]
        congr 1
        have hdiv : n / 10 < n := Nat.div_lt_self (by omega) (by norm_num)
        exact ih k (n / 10) (by omega) (by omega)

theorem natDigitsRev_succ (n : Nat) (hn : n ≠ 0) :
    natDigitsRev n = n % 10 :: natDigitsRev (n / 10) := by
  cases n with
  | zero => exact absurd rfl hn
  | succ m =>
    show natDigitsRevAux (m + 1) (m + 1) = _
    rw [natDigitsRevAux, if_neg hn]
    congr 1
    have hdiv : (m + 1) / 10 < m + 1 := Nat.div_lt_self (by omega) (by norm_num)
    exact natDigitsRevAux_irrel m ((m + 1) / 10) ((m + 1) / 10) (by omega) (le_refl _)

theorem natDigitsRev_lt_ten : ∀ n, ∀ d ∈ natDigitsRev n, d < 10 := by
  intro n
  induction n using Nat.strong_induction_on with
  | _ n ih =>
    match n with
    | 0 => intro d hd; simp [natDigitsRev, natDigitsRevAux] at hd
    | m + 1 =>
      intro d hd
      rw [natDigitsRev_succ (m + 1) (by omega)] at hd
      rcases List.mem_cons.mp hd with h | h
      · omega
      · exact ih ((m + 1) / 10) (Nat.div_lt_self (Nat.succ_pos m) (by norm_num)) d h

theorem natDigitsRev_ne_nil (n : Nat) (hn : n ≠ 0) : natDigitsRev n ≠ [] := by
  rw [natDigitsRev_succ n hn]
  exact List.cons_ne_nil _ _

theorem natDecimal_data_ne_nil (n : Nat) : (natDecimal n).data ≠ [] := by
  by_cases h : n = 0
  · subst h; decide
  · rw [natDecimal, if_neg h]
    intro hc
    apply natDigitsRev_ne_nil n h
    have hl := congrArg List.length hc
    simp only [List.length_map, List.length_reverse, List.length_nil] at hl
    exact List.eq_nil_of_length_eq_zero hl

theorem natDecimal_mem_decChars (n : Nat) : ∀ c ∈ (natDecimal n).data, c ∈ decChars := by
  by_cases h : n = 0
  · subst h; decide
  · rw [natDecimal, if_neg h]
    intro c hc
    simp only [List.mem_map, List.mem_reverse] at hc
    obtain ⟨d, _, rfl⟩ := hc
    exact decChar_mem d

theorem foldl_decimal_digits (n : Nat) : ∀ acc : Nat,
    ((natDigitsRev n).reverse.map decChar).foldl (fun a c => a * 10 + decDigitVal c) acc =
      acc * 10 ^ (natDigitsRev n).length + n := by
  induction n using Nat.strong_induction_on with
  | _ n ih =>
    match n with
    | 0 => intro acc; simp [natDigitsRev, natDigitsRevAux]
    | m + 1 =>
      intro acc
      rw [natDigitsRev_succ (m + 1) (by omega)]
      have hdiv : (m + 1) / 10 < m + 1 := Nat.div_lt_self (Nat.succ_pos m) (by norm_num)
      simp only [List.reverse_cons, List.map_append, List.map_cons, List.map_nil,
        List.foldl_append, List.length_cons]
      rw [ih ((m + 1) / 10) hdiv acc]
      simp only [List.foldl_cons, List.foldl_nil]
      rw [decDigitVal_decChar ((m + 1) % 10) (by omega)]
      rw [pow_succ]
      have h10 : 10 * ((m + 1) / 10) + (m + 1) % 10 = m + 1 := Nat.div_add_mod (m + 1) 10
      ring_nf
      omega

theorem decOf_natDecimal (n : Nat) : decOf (natDecimal n).data = some n := by
  by_cases h : n = 0
  · subst h; decide
  · rw [decOf, if_neg, if_pos]
    · congr 1
      rw [natDecimal, if_neg h]
      have := foldl_decimal_digits n 0
      simpa using this
    · rw [List.all_eq_true]
      intro c hc
      exact contains_eq_true_of_mem (natDecimal_mem_decChars n c hc)
    · rw [List.isEmpty_iff]
      exact natDecimal_data_ne_nil n

/-! ## Splitting, joining and trimming lemmas -/

theorem splitCharPred_ne_nil (p : Char → Bool) (l : List Char) : splitCharPred p l ≠ [] := by
  cases l with
  | nil => simp [splitCharPred]
  | cons c rest =>
    rw [splitCharPred]
    split <;> split <;> simp

theorem splitCharPred_sepFree (p : Char → Bool) (l : List Char)
    (h : ∀ c ∈ l, p c = false) : splitCharPred p l = [l] := by
  induction l with
  | nil => rfl
  | cons c rest ih =>
    have hc : p c = false := h c (List.mem_cons_self c rest)
    rw [splitCharPred, ih (fun x hx => h x (List.mem_cons_of_mem _ hx))]
    simp [hc]

theorem splitCharPred_append (p : Char → Bool) (A : List Char) (sep : Char) (B : List Char)
    (hA : ∀ c ∈ A, p c = false) (hsep : p sep = true) :
    splitCharPred p (A ++ sep :: B) = A :: splitCharPred p B := by
  induction A with
  | nil =>
    simp only [List.nil_append]
    rw [splitCharPred]
    cases h : splitCharPred p B with
    | nil => exact absurd h (splitCharPred_ne_nil p B)
    | cons t ts => simp [hsep]
  | cons a A' ih =>
    have ha : p a = false := hA a (List.mem_cons_self a A')
    simp only [List.cons_append]
    rw [splitCharPred, ih (fun c hc => hA c (List.mem_cons_of_mem _ hc))]
    simp [ha]

theorem splitChar_sepFree (sep : Char) (l : List Char) (h : ∀ c ∈ l, c ≠ sep) :
    splitChar sep l = [l] :=
  splitCharPred_sepFree _ l (fun c hc => beq_eq_false_iff_ne.mpr (h c hc))

theorem splitChar_append (sep : Char) (A B : List Char) (hA : ∀ c ∈ A, c ≠ sep) :
    splitChar sep (A ++ sep :: B) = A :: splitChar sep B :=
  splitCharPred_append _ A sep B (fun c hc => beq_eq_false_iff_ne.mpr (hA c hc)) (by simp)

theorem joinChar_cons (sep : Char) (t : List Char) (ts : List (List Char)) (h : ts ≠ []) :
    joinChar sep (t :: ts) = t ++ sep :: joinChar sep ts := by
  cases ts with
  | nil => exact absurd rfl h
  | cons t' ts' => rfl

theorem mem_joinChar (sep : Char) (parts : List (List Char)) (c : Char)
    (hc : c ∈ joinChar sep parts) : c = sep ∨ ∃ t ∈ parts, c ∈ t := by
  induction parts with
  | nil => simp [joinChar] at hc
  | cons t ts ih =>
    cases ts with
    | nil =>
      right
      exact ⟨t, List.mem_cons_self t [], hc⟩
    | cons t' ts' =>
      rw [joinChar_cons sep t (t' :: ts') (by simp)] at hc
      rcases List.mem_append.mp hc with h | h
      · right; exact ⟨t, List.mem_cons_self _ _, h⟩
      · rcases List.mem_cons.mp h with h | h
        · left; exact h
        · rcases ih h with h | ⟨u, hu, hcu⟩
          · left; exact h
          · right; exact ⟨u, List.mem_cons_of_mem _ hu, hcu⟩

theorem wsTokens_joinChar (parts : List (List Char))
    (h : ∀ t ∈ parts, ∀ c ∈ t, c.isWhitespace = false) :
    wsTokens (joinChar ' ' parts) = parts.filter (fun t => !t.isEmpty) := by
  induction parts with
  | nil => rfl
  | cons t ts ih =>
    cases ts with
    | nil =>
      have hj : joinChar ' ' [t] = t := rfl
      rw [hj, wsTokens, splitCharPred_sepFree _ _ (h t (List.mem_cons_self t []))]
    | cons t' ts' =>
      rw [joinChar_cons ' ' t (t' :: ts') (by simp), wsTokens,
        splitCharPred_append _ t ' ' _ (h t (List.mem_cons_self _ _)) (by decide)]
      have ihe : (splitCharPred Char.isWhitespace (joinChar ' ' (t' :: ts'))).filter
          (fun t => !t.isEmpty) = (t' :: ts').filter (fun t => !t.isEmpty) :=
        ih (fun u hu => h u (List.mem_cons_of_mem _ hu))
      rw [List.filter_cons, List.filter_cons, ihe]

theorem dropWhile_eq_self_of_head (p : Char → Bool) (l : List Char)
    (h : ∀ c ∈ l.take 1, p c = false) : l.dropWhile p = l := by
  cases l with
  | nil => rfl
  | cons c rest =>
    rw [List.dropWhile_cons, if_neg]
    rw [h c (by simp)]
    exact Bool.false_ne_true

theorem jsTrim_of_ends (l : List Char)
    (hhead : ∀ c ∈ l.take 1, c.isWhitespace = false)
    (hlast : ∀ c ∈ l.reverse.take 1, c.isWhitespace = false) :
    jsTrim ⟨l⟩ = ⟨l⟩ := by
  show (⟨((l.dropWhile Char.isWhitespace).reverse.dropWhile Char.isWhitespace).reverse⟩ : String) = ⟨l⟩
  rw [dropWhile_eq_self_of_head _ l hhead, dropWhile_eq_self_of_head _ l.reverse hlast,
    List.reverse_reverse]

theorem joinChar_head_mem (parts : List (List Char)) (hne : parts ≠ [])
    (hall : ∀ t ∈ parts, t ≠ []) :
    ∀ c ∈ (joinChar ' ' parts).take 1, ∃ t ∈ parts, c ∈ t := by
  cases parts with
  | nil => exact absurd rfl hne
  | cons t ts =>
    have ht : t ≠ [] := hall t (List.mem_cons_self _ _)
    cases t with
    | nil => exact absurd rfl ht
    | cons a t' =>
      intro c hc
      cases ts with
      | nil =>
        simp only [joinChar, List.take] at hc
        have hc' : c = a := List.mem_singleton.mp (by simpa using hc)
        exact ⟨a :: t', List.mem_cons_self _ _, by rw [hc']; exact List.mem_cons_self _ _⟩
      | cons u us =>
        rw [joinChar_cons ' ' _ (u :: us) (by simp)] at hc
        simp only [List.cons_append, List.take_succ_cons, List.take_zero] at hc
        have hc' : c = a := List.mem_singleton.mp hc
        exact ⟨a :: t', List.mem_cons_self _ _, by rw [hc']; exact List.mem_cons_self _ _⟩

theorem joinChar_last_mem (parts : List (List Char)) (hne : parts ≠ [])
    (hall : ∀ t ∈ parts, t ≠ []) :
    ∀ c ∈ (joinChar ' ' parts).reverse.take 1, ∃ t ∈ parts, c ∈ t := by
  induction parts with
  | nil => exact absurd rfl hne
  | cons t ts ih =>
    cases ts with
    | nil =>
      intro c hc
      have : c ∈ (joinChar ' ' [t]).reverse := List.mem_of_mem_take hc
      rw [List.mem_reverse] at this
      exact ⟨t, List.mem_cons_self _ _, this⟩
    | cons u us =>
      intro c hc
      rw [joinChar_cons ' ' t (u :: us) (by simp)] at hc
      rw [List.reverse_append, List.reverse_cons, List.append_assoc] at hc
      have hjoin : (joinChar ' ' (u :: us)) ≠ [] := by
        have hu : u ≠ [] := hall u (List.mem_cons_of_mem _ (List.mem_cons_self _ _))
        cases us with
        | nil =>
          simpa [joinChar] using hu
        | cons v vs =>
          rw [joinChar_cons ' ' u (v :: vs) (by simp)]
          cases u with
          | nil => exact absurd rfl hu
          | cons b u' => simp
      rw [List.take_append_of_le_length (by
        cases hj : (joinChar ' ' (u :: us)).reverse with
        | nil => exact absurd (by simpa using hj) hjoin
        | cons x xs => simp)] at hc
      have := ih (by simp) (fun v hv => hall v (List.mem_cons_of_mem _ hv)) c hc
      rcases this with ⟨v, hv, hcv⟩
      exact ⟨v, List.mem_cons_of_mem _ hv, hcv⟩

/-! ## UUID v7 and ULID structure lemmas -/

theorem generateUUIDv7_data (t : Nat) (rnd : Nat → Nat) :
    (generateUUIDv7 t rnd).data =
      toHexChar (t / 2 ^ 40 % 256 / 16) ::
      toHexChar (t / 2 ^ 40 % 256 % 16) ::
      toHexChar (t / 2 ^ 32 % 256 / 16) ::
      toHexChar (t / 2 ^ 32 % 256 % 16) ::
      toHexChar (t / 2 ^ 24 % 256 / 16) ::
      toHexChar (t / 2 ^ 24 % 256 % 16) ::
      toHexChar (t / 2 ^ 16 % 256 / 16) ::
      toHexChar (t / 2 ^ 16 % 256 % 16) ::
      '-' ::
      toHexChar (t / 2 ^ 8 % 256 / 16) ::
      toHexChar (t / 2 ^ 8 % 256 % 16) ::
      toHexChar (t % 256 / 16) ::
      toHexChar (t % 256 % 16) ::
      '-' ::
      toHexChar ((0x70 + rnd 6 % 16) / 16) ::
      toHexChar ((0x70 + rnd 6 % 16) % 16) ::
      toHexChar (rnd 7 / 16) ::
      toHexChar (rnd 7 % 16) ::
      '-' ::
      toHexChar ((0x80 + rnd 8 % 64) / 16) ::
      toHexChar ((0x80 + rnd 8 % 64) % 16) ::
      toHexChar (rnd 9 / 16) ::
      toHexChar (rnd 9 % 16) ::
      '-' ::
      toHexChar (rnd 10 / 16) ::
      toHexChar (rnd 10 % 16) ::
      toHexChar (rnd 11 / 16) ::
      toHexChar (rnd 11 % 16) ::
      toHexChar (rnd 12 / 16) ::
      toHexChar (rnd 12 % 16) ::
      toHexChar (rnd 13 / 16) ::
      toHexChar (rnd 13 % 16) ::
      toHexChar (rnd 14 / 16) ::
      toHexChar (rnd 14 % 16) ::
      toHexChar (rnd 15 / 16) ::
      toHexChar (rnd 15 % 16) :: [] := rfl

theorem hexDigitVal_toHexChar_divNibble (x : Nat) :
    hexDigitVal (toHexChar (x % 256 / 16)) = x % 256 / 16 :=
  hexDigitVal_toHexChar _ (by omega)

theorem hexDigitVal_toHexChar_modNibble (x : Nat) :
    hexDigitVal (toHexChar (x % 16)) = x % 16 :=
  hexDigitVal_toHexChar _ (by omega)

theorem crockfordVal_ulidChar_mod (x : Nat) :
    crockfordVal (ulidChar (x % 32)) = some (x % 32) :=
  crockfordVal_ulidChar _ (by omega)

theorem ulidTimestampChars_length : ∀ (n ts : Nat), (ulidTimestampChars n ts).length = n := by
  intro n
  induction n with
  | zero => intro ts; rfl
  | succ m ih => intro ts; simp [ulidTimestampChars, ih]

theorem ulidTimestampChars_ten (t : Nat) :
    ulidTimestampChars 10 t =
      [ulidChar (t / 32 ^ 9 % 32), ulidChar (t / 32 ^ 8 % 32), ulidChar (t / 32 ^ 7 % 32),
       ulidChar (t / 32 ^ 6 % 32), ulidChar (t / 32 ^ 5 % 32), ulidChar (t / 32 ^ 4 % 32),
       ulidChar (t / 32 ^ 3 % 32), ulidChar (t / 32 ^ 2 % 32), ulidChar (t / 32 % 32),
       ulidChar (t % 32)] := by
  have hstep : ulidTimestampChars 10 t =
      [ulidChar (t / 32 / 32 / 32 / 32 / 32 / 32 / 32 / 32 / 32 % 32),
       ulidChar (t / 32 / 32 / 32 / 32 / 32 / 32 / 32 / 32 % 32),
       ulidChar (t / 32 / 32 / 32 / 32 / 32 / 32 / 32 % 32),
       ulidChar (t / 32 / 32 / 32 / 32 / 32 / 32 % 32),
       ulidChar (t / 32 / 32 / 32 / 32 / 32 % 32),
       ulidChar (t / 32 / 32 / 32 / 32 % 32),
       ulidChar (t / 32 / 32 / 32 % 32),
       ulidChar (t / 32 / 32 % 32),
       ulidChar (t / 32 % 32),
       ulidChar (t % 32)] := rfl
  rw [hstep]
  norm_num [Nat.div_div_eq_div_mul]

theorem generateULID_data (t : Nat) (rnd : Nat → Nat) :
    (generateULID t rnd).data =
      ulidTimestampChars 10 t ++
        (((List.range 10).foldl (fun acc i => ulidRandomStep rnd i acc) []).take 16) := rfl

theorem decodeUUIDv7_generateUUIDv7 (t : Nat) (rnd : Nat → Nat) (ht : t < 2 ^ 48) :
    decodeUUIDv7Timestamp (generateUUIDv7 t rnd) = t := by
  rw [decodeUUIDv7Timestamp, generateUUIDv7_data]
  simp [List.filter_cons, toHexChar_beq_hyphen, List.take_succ_cons,
    List.foldl_cons, hexDigitVal_toHexChar_divNibble, hexDigitVal_toHexChar_modNibble]
  omega

theorem decodeULID_generateULID (t : Nat) (rnd : Nat → Nat) (ht : t < 2 ^ 48) :
    decodeULIDTimestamp (generateULID t rnd) = some t := by
  rw [decodeULIDTimestamp]
  have hdata := generateULID_data t rnd
  have htake : (generateULID t rnd).data.take 10 = ulidTimestampChars 10 t := by
    rw [hdata]
    exact List.take_left' (ulidTimestampChars_length 10 t)
  rw [htake, ulidTimestampChars_ten]
  simp [List.foldl_cons, crockfordVal_ulidChar_mod]
  omega

/-- C1: for every millisecond timestamp below `2^48` and every draw of
random bytes, the UUID v7 generator places the timestamp in the first 48
bits (the first 12 hex characters after removing hyphens decode to it,
big-endian) and the ULID generator places it in the first 10 Crockford
base-32 characters (most significant digit first); decoding the
timestamp field of a freshly generated UUID v7 or ULID recovers exactly
the timestamp used at generation. -/
theorem uuidv7_ulid_timestamp_roundTrip (t : Nat) (rndU rndL : Nat → Nat)
    (ht : t < 2 ^ 48) :
    decodeUUIDv7Timestamp (generateUUIDv7 t rndU) = t ∧
    decodeULIDTimestamp (generateULID t rndL) = some t :=
  ⟨decodeUUIDv7_generateUUIDv7 t rndU ht, decodeULID_generateULID t rndL ht⟩

/-- Witness for C1 at the concrete timestamp 1700000000000. -/
theorem uuidv7_ulid_timestamp_roundTrip_witness :
    1700000000000 < 2 ^ 48 ∧
    decodeUUIDv7Timestamp (generateUUIDv7 1700000000000 (fun _ => 171)) = 1700000000000 ∧
    decodeULIDTimestamp (generateULID 1700000000000 (fun _ => 7)) = some 1700000000000 := by
  refine ⟨by norm_num, ?_, ?_⟩
  · exact (uuidv7_ulid_timestamp_roundTrip 1700000000000 (fun _ => 171) (fun _ => 7)
      (by norm_num)).1
  · exact (uuidv7_ulid_timestamp_roundTrip 1700000000000 (fun _ => 171) (fun _ => 7)
      (by norm_num)).2

theorem generateUUIDv7_data_norm (t : Nat) (rnd : Nat → Nat) :
    (generateUUIDv7 t rnd).data =
      toHexChar (t / 2 ^ 40 % 256 / 16) ::
      toHexChar (t / 2 ^ 40 % 256 % 16) ::
      toHexChar (t / 2 ^ 32 % 256 / 16) ::
      toHexChar (t / 2 ^ 32 % 256 % 16) ::
      toHexChar (t / 2 ^ 24 % 256 / 16) ::
      toHexChar (t / 2 ^ 24 % 256 % 16) ::
      toHexChar (t / 2 ^ 16 % 256 / 16) ::
      toHexChar (t / 2 ^ 16 % 256 % 16) ::
      '-' ::
      toHexChar (t / 2 ^ 8 % 256 / 16) ::
      toHexChar (t / 2 ^ 8 % 256 % 16) ::
      toHexChar (t % 256 / 16) ::
      toHexChar (t % 256 % 16) ::
      '-' ::
      '7' ::
      toHexChar (rnd 6 % 16) ::
      toHexChar (rnd 7 / 16) ::
      toHexChar (rnd 7 % 16) ::
      '-' ::
      toHexChar (8 + rnd 8 % 64 / 16) ::
      toHexChar (rnd 8 % 16) ::
      toHexChar (rnd 9 / 16) ::
      toHexChar (rnd 9 % 16) ::
      '-' ::
      toHexChar (rnd 10 / 16) ::
      toHexChar (rnd 10 % 16) ::
      toHexChar (rnd 11 / 16) ::
      toHexChar (rnd 11 % 16) ::
      toHexChar (rnd 12 / 16) ::
      toHexChar (rnd 12 % 16) ::
      toHexChar (rnd 13 / 16) ::
      toHexChar (rnd 13 % 16) ::
      toHexChar (rnd 14 / 16) ::
      toHexChar (rnd 14 % 16) ::
      toHexChar (rnd 15 / 16) ::
      toHexChar (rnd 15 % 16) :: [] := by
  rw [generateUUIDv7_data,
    show (0x70 + rnd 6 % 16) / 16 = 7 from by omega,
    show (0x70 + rnd 6 % 16) % 16 = rnd 6 % 16 from by omega,
    show (0x80 + rnd 8 % 64) / 16 = 8 + rnd 8 % 64 / 16 from by omega,
    show (0x80 + rnd 8 % 64) % 16 = rnd 8 % 16 from by omega]
  rfl

/-- C2: for every generation instant below `2^48` ms and every draw of 16
random bytes, `generateUUIDv7` returns a 36-character lowercase-hex
string grouped 8-4-4-4-12 by hyphens, whose character at index 14 is
`7`, whose character at index 19 is one of `8`, `9`, `a`, `b`, whose
first 6 bytes hold the big-endian 48-bit timestamp, and in which every
character outside the timestamp, version and variant fields encodes
exactly the corresponding bits drawn from the random source. -/
theorem generateUUIDv7_format (t : Nat) (rnd : Nat → Nat) (ht : t < 2 ^ 48)
    (hr : ∀ j, rnd j < 256) :
    (generateUUIDv7 t rnd).length = 36 ∧
    ((generateUUIDv7 t rnd).data[8]? = some '-' ∧
      (generateUUIDv7 t rnd).data[13]? = some '-' ∧
      (generateUUIDv7 t rnd).data[18]? = some '-' ∧
      (generateUUIDv7 t rnd).data[23]? = some '-') ∧
    (∀ c ∈ (generateUUIDv7 t rnd).data, c = '-' ∨ c ∈ hexChars) ∧
    (generateUUIDv7 t rnd).data[14]? = some '7' ∧
    ((generateUUIDv7 t rnd).data[19]? = some '8' ∨
      (generateUUIDv7 t rnd).data[19]? = some '9' ∨
      (generateUUIDv7 t rnd).data[19]? = some 'a' ∨
      (generateUUIDv7 t rnd).data[19]? = some 'b') ∧
    decodeUUIDv7Timestamp (generateUUIDv7 t rnd) = t ∧
    (generateUUIDv7 t rnd).data[15]? = some (toHexChar (rnd 6 % 16)) ∧
    (generateUUIDv7 t rnd).data[16]? = some (toHexChar (rnd 7 / 16)) ∧
    (generateUUIDv7 t rnd).data[17]? = some (toHexChar (rnd 7 % 16)) ∧
    (generateUUIDv7 t rnd).data[19]? = some (toHexChar (8 + rnd 8 % 64 / 16)) ∧
    (generateUUIDv7 t rnd).data[20]? = some (toHexChar (rnd 8 % 16)) ∧
    (generateUUIDv7 t rnd).data[21]? = some (toHexChar (rnd 9 / 16)) ∧
    (generateUUIDv7 t rnd).data[22]? = some (toHexChar (rnd 9 % 16)) ∧
    (generateUUIDv7 t rnd).data[24]? = some (toHexChar (rnd 10 / 16)) ∧
    (generateUUIDv7 t rnd).data[25]? = some (toHexChar (rnd 10 % 16)) ∧
    (generateUUIDv7 t rnd).data[26]? = some (toHexChar (rnd 11 / 16)) ∧
    (generateUUIDv7 t rnd).data[27]? = some (toHexChar (rnd 11 % 16)) ∧
    (generateUUIDv7 t rnd).data[28]? = some (toHexChar (rnd 12 / 16)) ∧
    (generateUUIDv7 t rnd).data[29]? = some (toHexChar (rnd 12 % 16)) ∧
    (generateUUIDv7 t rnd).data[30]? = some (toHexChar (rnd 13 / 16)) ∧
    (generateUUIDv7 t rnd).data[31]? = some (toHexChar (rnd 13 % 16)) ∧
    (generateUUIDv7 t rnd).data[32]? = some (toHexChar (rnd 14 / 16)) ∧
    (generateUUIDv7 t rnd).data[33]? = some (toHexChar (rnd 14 % 16)) ∧
    (generateUUIDv7 t rnd).data[34]? = some (toHexChar (rnd 15 / 16)) ∧
    (generateUUIDv7 t rnd).data[35]? = some (toHexChar (rnd 15 % 16)) := by
  have hd := generateUUIDv7_data_norm t rnd
  refine ⟨?_, ⟨by simp [hd], by simp [hd], by simp [hd], by simp [hd]⟩, ?_, by simp [hd], ?_,
    decodeUUIDv7_generateUUIDv7 t rnd ht, by simp [hd], by simp [hd], by simp [hd], by simp [hd],
    by simp [hd], by simp [hd], by simp [hd], by simp [hd], by simp [hd], by simp [hd],
    by simp [hd], by simp [hd], by simp [hd], by simp [hd], by simp [hd], by simp [hd],
    by simp [hd], by simp [hd], by simp [hd]⟩
  · show (generateUUIDv7 t rnd).data.length = 36
    simp [hd]
  · intro c hc
    rw [hd] at hc
    simp only [List.mem_cons, List.not_mem_nil, or_false] at hc
    obtain rfl | rfl | rfl | rfl | rfl | rfl | rfl | rfl | rfl | rfl | rfl | rfl | rfl | rfl | rfl | rfl | rfl | rfl | rfl | rfl | rfl | rfl | rfl | rfl | rfl | rfl | rfl | rfl | rfl | rfl | rfl | rfl | rfl | rfl | rfl | rfl := hc
    all_goals first
      | exact Or.inl rfl
      | exact Or.inr (toHexChar_mem _)
      | exact Or.inr (by decide)
  · have h19 : (generateUUIDv7 t rnd).data[19]? = some (toHexChar (8 + rnd 8 % 64 / 16)) := by
      rw [hd]; rfl
    have hq : rnd 8 % 64 / 16 = 0 ∨ rnd 8 % 64 / 16 = 1 ∨ rnd 8 % 64 / 16 = 2 ∨
        rnd 8 % 64 / 16 = 3 := by omega
    rcases hq with h | h | h | h
    · exact Or.inl (by rw [h19, h]; decide)
    · exact Or.inr (Or.inl (by rw [h19, h]; decide))
    · exact Or.inr (Or.inr (Or.inl (by rw [h19, h]; decide)))
    · exact Or.inr (Or.inr (Or.inr (by rw [h19, h]; decide)))

/-- Witness for C2 at a concrete timestamp and random draw. -/
theorem generateUUIDv7_format_witness :
    1700000000000 < 2 ^ 48 ∧
    (generateUUIDv7 1700000000000 (fun _ => 171)).length = 36 ∧
    (generateUUIDv7 1700000000000 (fun _ => 171)).data[14]? = some '7' ∧
    decodeUUIDv7Timestamp (generateUUIDv7 1700000000000 (fun _ => 171)) = 1700000000000 := by
  have h := generateUUIDv7_format 1700000000000 (fun _ => 171) (by norm_num)
    (fun j => by norm_num)
  exact ⟨by norm_num, h.1, h.2.2.2.1, h.2.2.2.2.2.1⟩

/-! ## Builder serialization character facts -/

theorem buildFieldValueChars_subset (v : FieldValue) :
    ∀ c ∈ buildFieldValueChars v,
      c ∈ decChars ∨ c = '*' ∨ c = '-' ∨ c = ',' ∨ c = '/' := by
  obtain ⟨ty, sp, rs, re, st, lv⟩ := v
  cases ty <;> intro c hc <;> simp only [buildFieldValueChars] at hc
  · simp only [List.mem_singleton] at hc
    exact Or.inr (Or.inl hc)
  · exact Or.inl (natDecimal_mem_decChars _ c hc)
  · rcases List.mem_append.mp hc with h | h
    · exact Or.inl (natDecimal_mem_decChars _ c h)
    · rcases List.mem_cons.mp h with h | h
      · exact Or.inr (Or.inr (Or.inl h))
      · exact Or.inl (natDecimal_mem_decChars _ c h)
  · rcases mem_joinChar ',' _ c hc with h | ⟨t, ht, hct⟩
    · exact Or.inr (Or.inr (Or.inr (Or.inl h)))
    · rcases List.mem_map.mp ht with ⟨n, _, rfl⟩
      exact Or.inl (natDecimal_mem_decChars n c hct)
  · rcases List.mem_cons.mp hc with h | h
    · exact Or.inr (Or.inl h)
    · rcases List.mem_cons.mp h with h | h
      · exact Or.inr (Or.inr (Or.inr (Or.inr h)))
      · exact Or.inl (natDecimal_mem_decChars _ c h)
  · rcases List.mem_append.mp hc with h | h
    · exact Or.inl (natDecimal_mem_decChars _ c h)
    · rcases List.mem_cons.mp h with h | h
      · exact Or.inr (Or.inr (Or.inl h))
      · rcases List.mem_append.mp h with h | h
        · exact Or.inl (natDecimal_mem_decChars _ c h)
        · rcases List.mem_cons.mp h with h | h
          · exact Or.inr (Or.inr (Or.inr (Or.inr h)))
          · exact Or.inl (natDecimal_mem_decChars _ c h)

theorem tokenChar_facts :
    ∀ c : Char, (c ∈ decChars ∨ c = '*' ∨ c = '-' ∨ c = ',' ∨ c = '/') →
      c.isWhitespace = false ∧ Char.toLower c ≠ '@' ∧ c ≠ '@' := by
  have hdec : ∀ c ∈ decChars, c.isWhitespace = false ∧ Char.toLower c ≠ '@' ∧ c ≠ '@' := by
    decide
  intro c h
  rcases h with h | rfl | rfl | rfl | rfl
  · exact hdec c h
  · exact ⟨rfl, by decide, by decide⟩
  · exact ⟨rfl, by decide, by decide⟩
  · exact ⟨rfl, by decide, by decide⟩
  · exact ⟨rfl, by decide, by decide⟩

theorem buildFieldValueChars_noWs (v : FieldValue) :
    ∀ c ∈ buildFieldValueChars v, c.isWhitespace = false :=
  fun c hc => (tokenChar_facts c (buildFieldValueChars_subset v c hc)).1

theorem buildFieldValueChars_list_empty (v : FieldValue) (hty : v.type = FieldValueType.list)
    (hlv : v.listValues.getD [] = []) : buildFieldValueChars v = [] := by
  rw [buildFieldValueChars, hty, hlv]
  rfl

/-! ## Claim C3, C5, C8, C10 -/

/-- C3: `expandSpecialString` maps `@daily` to `0 0 * * *` and `@hourly`
to `0 * * * *`, the lookup is case-insensitive (it depends only on the
lowercased trimmed key), and `parseCronExpression` on `@reboot` returns
a result with `valid = true` whose next-run list is empty, for any
behavior of the external libraries. -/
theorem specialString_expansion_reboot :
    expandSpecialString ("@daily") = some ("0 0 * * *") ∧
    expandSpecialString ("@hourly") = some ("0 * * * *") ∧
    expandSpecialString ("@DAILY") = some ("0 0 * * *") ∧
    (∀ s₁ s₂ : String, jsToLower (jsTrim s₁) = jsToLower (jsTrim s₂) →
      expandSpecialString s₁ = expandSpecialString s₂) ∧
    (∀ (libs : CronLibs) (options : ParseOptions),
      (parseCronExpression libs ("@reboot") options).valid = true ∧
      (parseCronExpression libs ("@reboot") options).nextRuns = some []) := by
  refine ⟨by decide, by decide, by decide, ?_, ?_⟩
  · intro s₁ s₂ h
    rw [expandSpecialString, expandSpecialString, h]
  · intro libs options
    exact ⟨rfl, rfl⟩

/-- Witness for C3's case-insensitivity hypothesis at `@DAILY` / `@daily`. -/
theorem specialString_expansion_reboot_witness :
    jsToLower (jsTrim ("@DAILY")) = jsToLower (jsTrim ("@daily")) ∧
    expandSpecialString ("@DAILY") = expandSpecialString ("@daily") :=
  ⟨by decide, specialString_expansion_reboot.2.2.2.1 ("@DAILY") ("@daily") (by decide)⟩

/-- C5 counterexample: a `specific` builder value with no number
serializes to `0`, not to the field's minimum (`1` for day-of-month as
the claim states); `buildFieldValue` does not consult the field at all. -/
theorem buildFieldValue_specific_unset_counterexample :
    buildFieldValue ⟨FieldValueType.specific, none, none, none, none, none⟩ = "0" ∧
    buildFieldValue ⟨FieldValueType.specific, none, none, none, none, none⟩ ≠ "1" := by
  decide

/-- C5 amended: serialization defaults every unset `specific`,
`rangeStart` and `rangeEnd` sub-field to 0 and an unset `step` to 1,
independently of the cron field (the serializer takes no field
argument), so an unset `specific` yields the token `0` for every field
including day-of-month. -/
theorem buildFieldValue_defaults (v : FieldValue) :
    (v.type = FieldValueType.specific → v.specific = none → buildFieldValue v = "0") ∧
    (v.type = FieldValueType.range → v.rangeStart = none → v.rangeEnd = none →
      buildFieldValue v = "0-0") ∧
    (v.type = FieldValueType.step → v.step = none → buildFieldValue v = "*/1") ∧
    (v.type = FieldValueType.rangeStep → v.rangeStart = none → v.rangeEnd = none →
      v.step = none → buildFieldValue v = "0-0/1") := by
  refine ⟨?_, ?_, ?_, ?_⟩
  · intro h1 h2
    rw [buildFieldValue, buildFieldValueChars, h1, h2]
    rfl
  · intro h1 h2 h3
    rw [buildFieldValue, buildFieldValueChars, h1, h2, h3]
    rfl
  · intro h1 h2
    rw [buildFieldValue, buildFieldValueChars, h1, h2]
    rfl
  · intro h1 h2 h3 h4
    rw [buildFieldValue, buildFieldValueChars, h1, h2, h3, h4]
    rfl

/-- Witness for C5's amended claim at concrete unset field values. -/
theorem buildFieldValue_defaults_witness :
    buildFieldValue ⟨FieldValueType.range, none, none, none, none, none⟩ = "0-0" ∧
    buildFieldValue ⟨FieldValueType.step, none, none, none, none, none⟩ = "*/1" ∧
    buildFieldValue ⟨FieldValueType.rangeStep, none, none, none, none, none⟩ = "0-0/1" :=
  ⟨(buildFieldValue_defaults _).2.1 rfl rfl rfl,
   (buildFieldValue_defaults _).2.2.1 rfl rfl,
   (buildFieldValue_defaults _).2.2.2 rfl rfl rfl rfl⟩

/-- C8: `generateMultiple` returns exactly `max 1 (min 100 count)`
identifiers for every requested count (including non-positive and
over-limit counts) and never rejects a request: a count of 0 yields 1
identifier and a count of 500 yields 100. -/
theorem generateMultiple_count_clamped :
    (∀ (type : UUIDType) (count : Int) (options : FormatOptions) (clock : Nat → Nat)
        (entropy : Nat → Nat → Nat) (randomUUID : Nat → String),
      (generateMultiple type count options clock entropy randomUUID).length =
        (max 1 (min 100 count)).toNat) ∧
    (∀ (type : UUIDType) (options : FormatOptions) (clock : Nat → Nat)
        (entropy : Nat → Nat → Nat) (randomUUID : Nat → String),
      (generateMultiple type 0 options clock entropy randomUUID).length = 1 ∧
      (generateMultiple type 500 options clock entropy randomUUID).length = 100) := by
  have hlen : ∀ (type : UUIDType) (count : Int) (options : FormatOptions) (clock : Nat → Nat)
      (entropy : Nat → Nat → Nat) (randomUUID : Nat → String),
      (generateMultiple type count options clock entropy randomUUID).length =
        (max 1 (min 100 count)).toNat := by
    intro type count options clock entropy randomUUID
    rw [generateMultiple]
    simp
  refine ⟨hlen, ?_⟩
  intro type options clock entropy randomUUID
  rw [hlen, hlen]
  exact ⟨by decide, by decide⟩

/-- C10: a `list` builder value with unset or empty `listValues`
serializes to the empty string, and a cron expression built from a
field array containing such a value (within the format's field count)
has fewer whitespace-separated tokens than the format's field count. -/
theorem emptyList_field_token_underflow :
    buildFieldValue ⟨FieldValueType.list, none, none, none, none, none⟩ = "" ∧
    buildFieldValue ⟨FieldValueType.list, none, none, none, none, some []⟩ = "" ∧
    (∀ (fields : List FieldValue) (format : CronFormat),
      (fields.take (if format = CronFormat.sixField then 6 else 5)).any
        (fun v => decide (v.type = FieldValueType.list) &&
          decide (v.listValues.getD [] = [])) = true →
      (wsTokens (buildCronExpression fields format).data).length <
        (if format = CronFormat.sixField then 6 else 5)) := by
  refine ⟨by decide, by decide, ?_⟩
  intro fields format hany
  rw [buildCronExpression]
  show (wsTokens (joinChar ' '
      ((fields.take (if format = CronFormat.sixField then 6 else 5)).map buildFieldValueChars ++
        List.replicate ((if format = CronFormat.sixField then 6 else 5) -
          ((fields.take (if format = CronFormat.sixField then 6 else 5)).map
            buildFieldValueChars).length) ['*']))).length <
    (if format = CronFormat.sixField then 6 else 5)
  have hws : ∀ t ∈ (fields.take (if format = CronFormat.sixField then 6 else 5)).map
      buildFieldValueChars ++
      List.replicate ((if format = CronFormat.sixField then 6 else 5) -
        ((fields.take (if format = CronFormat.sixField then 6 else 5)).map
          buildFieldValueChars).length) ['*'],
      ∀ c ∈ t, c.isWhitespace = false := by
    intro t ht c hc
    rcases List.mem_append.mp ht with h | h
    · rcases List.mem_map.mp h with ⟨v, _, rfl⟩
      exact buildFieldValueChars_noWs v c hc
    · rw [List.eq_of_mem_replicate h] at hc
      simp only [List.mem_singleton] at hc
      rw [hc]
      rfl
  rw [wsTokens_joinChar _ hws]
  obtain ⟨v, hv, hcond⟩ := List.any_eq_true.mp hany
  simp only [Bool.and_eq_true, decide_eq_true_eq] at hcond
  have hempty : buildFieldValueChars v = [] :=
    buildFieldValueChars_list_empty v hcond.1 hcond.2
  have hmem : ([] : List Char) ∈
      (fields.take (if format = CronFormat.sixField then 6 else 5)).map buildFieldValueChars ++
      List.replicate ((if format = CronFormat.sixField then 6 else 5) -
        ((fields.take (if format = CronFormat.sixField then 6 else 5)).map
          buildFieldValueChars).length) ['*'] :=
    List.mem_append.mpr (Or.inl (List.mem_map.mpr ⟨v, hv, hempty⟩))
  have hlt : (((fields.take (if format = CronFormat.sixField then 6 else 5)).map
      buildFieldValueChars ++
      List.replicate ((if format = CronFormat.sixField then 6 else 5) -
        ((fields.take (if format = CronFormat.sixField then 6 else 5)).map
          buildFieldValueChars).length) ['*']).filter (fun t => !t.isEmpty)).length <
      (((fields.take (if format = CronFormat.sixField then 6 else 5)).map
        buildFieldValueChars ++
        List.replicate ((if format = CronFormat.sixField then 6 else 5) -
          ((fields.take (if format = CronFormat.sixField then 6 else 5)).map
            buildFieldValueChars).length) ['*'])).length :=
    List.length_filter_lt_length_iff_exists.mpr ⟨([] : List Char), hmem, by simp⟩
  have hlenp : ((fields.take (if format = CronFormat.sixField then 6 else 5)).map
      buildFieldValueChars ++
      List.replicate ((if format = CronFormat.sixField then 6 else 5) -
        ((fields.take (if format = CronFormat.sixField then 6 else 5)).map
          buildFieldValueChars).length) ['*']).length ≤
      (if format = CronFormat.sixField then 6 else 5) := by
    rw [List.length_append, List.length_replicate, List.length_map, List.length_take]
    omega
  omega

/-- Witness for C10 at a concrete field array with an unset list value. -/
theorem emptyList_field_token_underflow_witness :
    (([⟨FieldValueType.list, none, none, none, none, none⟩,
       ⟨FieldValueType.wildcard, none, none, none, none, none⟩,
       ⟨FieldValueType.wildcard, none, none, none, none, none⟩,
       ⟨FieldValueType.wildcard, none, none, none, none, none⟩,
       ⟨FieldValueType.wildcard, none, none, none, none, none⟩] : List FieldValue).take 5).any
      (fun v => decide (v.type = FieldValueType.list) &&
        decide (v.listValues.getD [] = [])) = true ∧
    (wsTokens (buildCronExpression
      [⟨FieldValueType.list, none, none, none, none, none⟩,
       ⟨FieldValueType.wildcard, none, none, none, none, none⟩,
       ⟨FieldValueType.wildcard, none, none, none, none, none⟩,
       ⟨FieldValueType.wildcard, none, none, none, none, none⟩,
       ⟨FieldValueType.wildcard, none, none, none, none, none⟩]
      CronFormat.fiveField).data).length < 5 :=
  ⟨by decide, emptyList_field_token_underflow.2.2 _ CronFormat.fiveField (by decide)⟩

/-! ## Claim C9: parse always answers -/

theorem validateCronExpression_invalid_error (libs : CronLibs) (s : String) :
    (validateCronExpression libs s).valid = false →
    (validateCronExpression libs s).error.isSome = true := by
  simp only [validateCronExpression]
  by_cases h0 : jsTrim s = ""
  · rw [if_pos h0]
    intro
    rfl
  · rw [if_neg h0]
    by_cases h1 : isSpecialString (jsTrim s) = true
    · rw [if_pos h1]
      intro hh
      simp at hh
    · rw [if_neg h1]
      cases hp : libs.cronParserParse
          (if detectCronFormat (jsTrim s) = CronFormat.fiveField
            then "0 " ++ jsTrim s else jsTrim s) with
      | error e => intro; rfl
      | ok u =>
        cases hc : libs.cronstrueToString (jsTrim s) false with
        | error e => intro; rfl
        | ok d => intro hh; simp at hh

/-- C9: for every input string, every options record and every behavior
of the external libraries, `parseCronExpression` returns a
`CronParseResult` (it is a total function of this embedding, so nothing
escapes as an exception), and every failure — empty input, validation
failure, or an exception thrown by description generation or next-run
computation — is surfaced as `valid = false` together with an error
message; a valid result carries no error. -/
theorem parseCronExpression_always_answers (libs : CronLibs) (s : String)
    (options : ParseOptions) :
    ((parseCronExpression libs s options).valid = true ∧
      (parseCronExpression libs s options).error = none) ∨
    ((parseCronExpression libs s options).valid = false ∧
      (parseCronExpression libs s options).error.isSome = true) := by
  simp only [parseCronExpression]
  by_cases h0 : jsTrim s = ""
  · rw [if_pos h0]
    exact Or.inr ⟨rfl, rfl⟩
  · rw [if_neg h0]
    by_cases hv : (validateCronExpression libs (jsTrim s)).valid = false
    · rw [if_pos hv]
      exact Or.inr ⟨rfl, validateCronExpression_invalid_error libs (jsTrim s) hv⟩
    · rw [if_neg hv]
      cases hd : getCronDescription libs (jsTrim s) with
      | error e => exact Or.inr ⟨rfl, rfl⟩
      | ok desc =>
        cases hr : getNextRuns libs (jsTrim s) (options.nextRunCount.getD 5) with
        | error e => exact Or.inr ⟨rfl, rfl⟩
        | ok runs => exact Or.inl ⟨rfl, rfl⟩

/-! ## Claim C7: relative-time selection of getRelativeTime -/

/-- C7 counterexample: the source's `getRelativeTime` contradicts the
claimed threshold table.  At 29 days in the past it rounds to -4 weeks,
the `< 4` week test fails, and it formats months (-1, "1 month ago" with
a plain English formatter) for every formatter, where the table's
under-5-weeks threshold demands "4 weeks ago"; at 3 seconds in the past
it formats seconds for every formatter, where the table demands the
fixed phrase "just now". -/
theorem getRelativeTime_thresholds_counterexample :
    (∀ rtf : Int → TimeUnit → String,
      getRelativeTime rtf (-(2505600000 : Int)) = rtf (-1) TimeUnit.month) ∧
    relativeTimePhrase (-(2505600000 : Int)) = "4 weeks ago" ∧
    (∀ rtf : Int → TimeUnit → String,
      getRelativeTime rtf (-(3000 : Int)) = rtf (-3) TimeUnit.second) ∧
    relativeTimePhrase (-(3000 : Int)) = "just now" ∧
    getRelativeTime (fun v u => unitPhrase (decide (0 < v)) v.natAbs (timeUnitName u))
      (-(2505600000 : Int)) = "1 month ago" :=
  ⟨fun rtf => rfl, by decide, fun rtf => rfl, by decide, by decide⟩

/-- C7 (amended): `getRelativeTime` converts the signed millisecond
difference stage-wise with `Math.round` (seconds, minutes, hours, days,
then weeks, months and years all from days) and renders with the
platform formatter the first unit whose absolute rounded value is under
its threshold: seconds under 60, minutes under 60, hours under 24, days
under 7, weeks under 4, months (days over 30) under 12, else years
(days over 365).  There is no "just now" case and no 5-second or 5-week
threshold; the wording is the formatter's. -/
theorem getRelativeTime_rounds (rtf : Int → TimeUnit → String) (diffMs : Int) :
    ((jsRoundDiv diffMs 1000).natAbs < 60 →
      getRelativeTime rtf diffMs = rtf (jsRoundDiv diffMs 1000) TimeUnit.second) ∧
    (¬((jsRoundDiv diffMs 1000).natAbs < 60) →
      (jsRoundDiv (jsRoundDiv diffMs 1000) 60).natAbs < 60 →
      getRelativeTime rtf diffMs =
        rtf (jsRoundDiv (jsRoundDiv diffMs 1000) 60) TimeUnit.minute) ∧
    (¬((jsRoundDiv diffMs 1000).natAbs < 60) →
      ¬((jsRoundDiv (jsRoundDiv diffMs 1000) 60).natAbs < 60) →
      (jsRoundDiv (jsRoundDiv (jsRoundDiv diffMs 1000) 60) 60).natAbs < 24 →
      getRelativeTime rtf diffMs =
        rtf (jsRoundDiv (jsRoundDiv (jsRoundDiv diffMs 1000) 60) 60) TimeUnit.hour) ∧
    (¬((jsRoundDiv diffMs 1000).natAbs < 60) →
      ¬((jsRoundDiv (jsRoundDiv diffMs 1000) 60).natAbs < 60) →
      ¬((jsRoundDiv (jsRoundDiv (jsRoundDiv diffMs 1000) 60) 60).natAbs < 24) →
      (jsRoundDiv (jsRoundDiv (jsRoundDiv (jsRoundDiv diffMs 1000) 60) 60) 24).natAbs < 7 →
      getRelativeTime rtf diffMs =
        rtf (jsRoundDiv (jsRoundDiv (jsRoundDiv (jsRoundDiv diffMs 1000) 60) 60) 24)
          TimeUnit.day) ∧
    (¬((jsRoundDiv diffMs 1000).natAbs < 60) →
      ¬((jsRoundDiv (jsRoundDiv diffMs 1000) 60).natAbs < 60) →
      ¬((jsRoundDiv (jsRoundDiv (jsRoundDiv diffMs 1000) 60) 60).natAbs < 24) →
      ¬((jsRoundDiv (jsRoundDiv (jsRoundDiv (jsRoundDiv diffMs 1000) 60) 60) 24).natAbs < 7) →
      (jsRoundDiv (jsRoundDiv (jsRoundDiv (jsRoundDiv (jsRoundDiv diffMs 1000) 60) 60) 24)
        7).natAbs < 4 →
      getRelativeTime rtf diffMs =
        rtf (jsRoundDiv (jsRoundDiv (jsRoundDiv (jsRoundDiv (jsRoundDiv diffMs 1000) 60) 60)
          24) 7) TimeUnit.week) ∧
    (¬((jsRoundDiv diffMs 1000).natAbs < 60) →
      ¬((jsRoundDiv (jsRoundDiv diffMs 1000) 60).natAbs < 60) →
      ¬((jsRoundDiv (jsRoundDiv (jsRoundDiv diffMs 1000) 60) 60).natAbs < 24) →
      ¬((jsRoundDiv (jsRoundDiv (jsRoundDiv (jsRoundDiv diffMs 1000) 60) 60) 24).natAbs < 7) →
      ¬((jsRoundDiv (jsRoundDiv (jsRoundDiv (jsRoundDiv (jsRoundDiv diffMs 1000) 60) 60) 24)
        7).natAbs < 4) →
      (jsRoundDiv (jsRoundDiv (jsRoundDiv (jsRoundDiv (jsRoundDiv diffMs 1000) 60) 60) 24)
        30).natAbs < 12 →
      getRelativeTime rtf diffMs =
        rtf (jsRoundDiv (jsRoundDiv (jsRoundDiv (jsRoundDiv (jsRoundDiv diffMs 1000) 60) 60)
          24) 30) TimeUnit.month) ∧
    (¬((jsRoundDiv diffMs 1000).natAbs < 60) →
      ¬((jsRoundDiv (jsRoundDiv diffMs 1000) 60).natAbs < 60) →
      ¬((jsRoundDiv (jsRoundDiv (jsRoundDiv diffMs 1000) 60) 60).natAbs < 24) →
      ¬((jsRoundDiv (jsRoundDiv (jsRoundDiv (jsRoundDiv diffMs 1000) 60) 60) 24).natAbs < 7) →
      ¬((jsRoundDiv (jsRoundDiv (jsRoundDiv (jsRoundDiv (jsRoundDiv diffMs 1000) 60) 60) 24)
        7).natAbs < 4) →
      ¬((jsRoundDiv (jsRoundDiv (jsRoundDiv (jsRoundDiv (jsRoundDiv diffMs 1000) 60) 60) 24)
        30).natAbs < 12) →
      getRelativeTime rtf diffMs =
        rtf (jsRoundDiv (jsRoundDiv (jsRoundDiv (jsRoundDiv (jsRoundDiv diffMs 1000) 60) 60)
          24) 365) TimeUnit.year) := by
  refine ⟨?_, ?_, ?_, ?_, ?_, ?_, ?_⟩
  · intro h1
    simp only [getRelativeTime]
    rw [if_pos h1]
  · intro h1 h2
    simp only [getRelativeTime]
    rw [if_neg h1, if_pos h2]
  · intro h1 h2 h3
    simp only [getRelativeTime]
    rw [if_neg h1, if_neg h2, if_pos h3]
  · intro h1 h2 h3 h4
    simp only [getRelativeTime]
    rw [if_neg h1, if_neg h2, if_neg h3, if_pos h4]
  · intro h1 h2 h3 h4 h5
    simp only [getRelativeTime]
    rw [if_neg h1, if_neg h2, if_neg h3, if_neg h4, if_pos h5]
  · intro h1 h2 h3 h4 h5 h6
    simp only [getRelativeTime]
    rw [if_neg h1, if_neg h2, if_neg h3, if_neg h4, if_neg h5, if_pos h6]
  · intro h1 h2 h3 h4 h5 h6
    simp only [getRelativeTime]
    rw [if_neg h1, if_neg h2, if_neg h3, if_neg h4, if_neg h5, if_neg h6]

/-- Witness for C7, three days in the past with a plain English
formatter. -/
theorem getRelativeTime_rounds_witness :
    (¬((jsRoundDiv (-(259200000 : Int)) 1000).natAbs < 60) ∧
     ¬((jsRoundDiv (jsRoundDiv (-(259200000 : Int)) 1000) 60).natAbs < 60) ∧
     ¬((jsRoundDiv (jsRoundDiv (jsRoundDiv (-(259200000 : Int)) 1000) 60) 60).natAbs < 24) ∧
     (jsRoundDiv (jsRoundDiv (jsRoundDiv (jsRoundDiv (-(259200000 : Int)) 1000) 60) 60)
       24).natAbs < 7) ∧
    getRelativeTime (fun v u => unitPhrase (decide (0 < v)) v.natAbs (timeUnitName u))
      (-(259200000 : Int)) = "3 days ago" := by
  refine ⟨⟨by decide, by decide, by decide, by decide⟩, ?_⟩
  rw [(getRelativeTime_rounds (fun v u => unitPhrase (decide (0 < v)) v.natAbs (timeUnitName u))
    (-(259200000 : Int))).2.2.2.1 (by decide) (by decide) (by decide) (by decide)]
  decide

/-! ## Claim C6: output format of generateMultiple -/

theorem hexUpper_facts :
    ∀ c ∈ hexChars, Char.toUpper c ≠ '-' ∧ Char.toUpper c ∈ hexDigitsAnyCase := by decide

theorem hexLower_facts :
    ∀ c ∈ hexChars, Char.toLower c ≠ '-' ∧ Char.toLower c ∈ hexDigitsAnyCase := by decide

theorem upper_toHexChar_beq (n : Nat) : (Char.toUpper (toHexChar n) == '-') = false :=
  beq_eq_false_iff_ne.mpr (hexUpper_facts _ (toHexChar_mem n)).1

theorem lower_toHexChar_beq (n : Nat) : (Char.toLower (toHexChar n) == '-') = false :=
  beq_eq_false_iff_ne.mpr (hexLower_facts _ (toHexChar_mem n)).1

theorem upperHyphen : Char.toUpper '-' = '-' := by decide

theorem lowerHyphen : Char.toLower '-' = '-' := by decide

theorem uuidStringOfBytes_data (b0 b1 b2 b3 b4 b5 b6 b7 b8 b9 b10 b11 b12 b13 b14 b15 : Nat) :
    (uuidStringOfBytes [b0, b1, b2, b3, b4, b5, b6, b7, b8, b9, b10, b11, b12, b13, b14, b15]).data =
      toHexChar (b0 / 16) ::
      toHexChar (b0 % 16) ::
      toHexChar (b1 / 16) ::
      toHexChar (b1 % 16) ::
      toHexChar (b2 / 16) ::
      toHexChar (b2 % 16) ::
      toHexChar (b3 / 16) ::
      toHexChar (b3 % 16) ::
      '-' ::
      toHexChar (b4 / 16) ::
      toHexChar (b4 % 16) ::
      toHexChar (b5 / 16) ::
      toHexChar (b5 % 16) ::
      '-' ::
      toHexChar (b6 / 16) ::
      toHexChar (b6 % 16) ::
      toHexChar (b7 / 16) ::
      toHexChar (b7 % 16) ::
      '-' ::
      toHexChar (b8 / 16) ::
      toHexChar (b8 % 16) ::
      toHexChar (b9 / 16) ::
      toHexChar (b9 % 16) ::
      '-' ::
      toHexChar (b10 / 16) ::
      toHexChar (b10 % 16) ::
      toHexChar (b11 / 16) ::
      toHexChar (b11 % 16) ::
      toHexChar (b12 / 16) ::
      toHexChar (b12 % 16) ::
      toHexChar (b13 / 16) ::
      toHexChar (b13 % 16) ::
      toHexChar (b14 / 16) ::
      toHexChar (b14 % 16) ::
      toHexChar (b15 / 16) ::
      toHexChar (b15 % 16) :: [] := rfl

theorem uuidStringOfBytes_mem (b0 b1 b2 b3 b4 b5 b6 b7 b8 b9 b10 b11 b12 b13 b14 b15 : Nat) :
    ∀ c ∈ (uuidStringOfBytes [b0, b1, b2, b3, b4, b5, b6, b7, b8, b9, b10, b11, b12, b13, b14, b15]).data, c = '-' ∨ c ∈ hexChars := by
  intro c hc
  rw [uuidStringOfBytes_data] at hc
  simp only [List.mem_cons, List.not_mem_nil, or_false] at hc
  obtain rfl | rfl | rfl | rfl | rfl | rfl | rfl | rfl | rfl | rfl | rfl | rfl | rfl | rfl | rfl | rfl | rfl | rfl | rfl | rfl | rfl | rfl | rfl | rfl | rfl | rfl | rfl | rfl | rfl | rfl | rfl | rfl | rfl | rfl | rfl | rfl := hc
  all_goals first
    | exact Or.inl rfl
    | exact Or.inr (toHexChar_mem _)

theorem uuidStringOfBytes_contains (b0 b1 b2 b3 b4 b5 b6 b7 b8 b9 b10 b11 b12 b13 b14 b15 : Nat) :
    (uuidStringOfBytes [b0, b1, b2, b3, b4, b5, b6, b7, b8, b9, b10, b11, b12, b13, b14, b15]).data.contains '-' = true :=
  contains_eq_true_of_mem (by rw [uuidStringOfBytes_data]; simp)

theorem formatID_uuid (b0 b1 b2 b3 b4 b5 b6 b7 b8 b9 b10 b11 b12 b13 b14 b15 : Nat) (h0 : b0 < 256) (h1 : b1 < 256) (h2 : b2 < 256) (h3 : b3 < 256) (h4 : b4 < 256) (h5 : b5 < 256) (h6 : b6 < 256) (h7 : b7 < 256) (h8 : b8 < 256) (h9 : b9 < 256) (h10 : b10 < 256) (h11 : b11 < 256) (h12 : b12 < 256) (h13 : b13 < 256) (h14 : b14 < 256) (h15 : b15 < 256) (options : FormatOptions) :
    uuidFormatOK (formatID (uuidStringOfBytes [b0, b1, b2, b3, b4, b5, b6, b7, b8, b9, b10, b11, b12, b13, b14, b15]) options) options.hyphens := by
  have hmem := uuidStringOfBytes_mem b0 b1 b2 b3 b4 b5 b6 b7 b8 b9 b10 b11 b12 b13 b14 b15
  have hcont := uuidStringOfBytes_contains b0 b1 b2 b3 b4 b5 b6 b7 b8 b9 b10 b11 b12 b13 b14 b15
  obtain ⟨u, hy⟩ := options
  cases hy with
  | false =>
    cases u with
    | true =>
      have hsdata : (formatID (uuidStringOfBytes [b0, b1, b2, b3, b4, b5, b6, b7, b8, b9, b10, b11, b12, b13, b14, b15]) ⟨true, false⟩).data =
          ((uuidStringOfBytes [b0, b1, b2, b3, b4, b5, b6, b7, b8, b9, b10, b11, b12, b13, b14, b15]).data.filter (fun c => !(c == '-'))).map
            Char.toUpper := rfl
      refine ⟨?_, ?_, ?_⟩
      · show (formatID (uuidStringOfBytes [b0, b1, b2, b3, b4, b5, b6, b7, b8, b9, b10, b11, b12, b13, b14, b15]) ⟨true, false⟩).data.length = 32
        rw [hsdata, List.length_map, uuidStringOfBytes_data]
        simp [List.filter_cons, toHexChar_beq_hyphen]
      · intro h
        rw [hsdata] at h
        rcases List.mem_map.mp h with ⟨c, hc, hfc⟩
        rcases List.mem_filter.mp hc with ⟨hcd, hp⟩
        rcases hmem c hcd with rfl | hhex
        · simp at hp
        · exact (hexUpper_facts c hhex).1 hfc
      · intro c hc
        rw [hsdata] at hc
        rcases List.mem_map.mp hc with ⟨c', hc', rfl⟩
        rcases List.mem_filter.mp hc' with ⟨hcd, hp⟩
        rcases hmem c' hcd with rfl | hhex
        · simp at hp
        · exact (hexUpper_facts c' hhex).2
    | false =>
      have hsdata : (formatID (uuidStringOfBytes [b0, b1, b2, b3, b4, b5, b6, b7, b8, b9, b10, b11, b12, b13, b14, b15]) ⟨false, false⟩).data =
          ((uuidStringOfBytes [b0, b1, b2, b3, b4, b5, b6, b7, b8, b9, b10, b11, b12, b13, b14, b15]).data.filter (fun c => !(c == '-'))).map
            Char.toLower := rfl
      refine ⟨?_, ?_, ?_⟩
      · show (formatID (uuidStringOfBytes [b0, b1, b2, b3, b4, b5, b6, b7, b8, b9, b10, b11, b12, b13, b14, b15]) ⟨false, false⟩).data.length = 32
        rw [hsdata, List.length_map, uuidStringOfBytes_data]
        simp [List.filter_cons, toHexChar_beq_hyphen]
      · intro h
        rw [hsdata] at h
        rcases List.mem_map.mp h with ⟨c, hc, hfc⟩
        rcases List.mem_filter.mp hc with ⟨hcd, hp⟩
        rcases hmem c hcd with rfl | hhex
        · simp at hp
        · exact (hexLower_facts c hhex).1 hfc
      · intro c hc
        rw [hsdata] at hc
        rcases List.mem_map.mp hc with ⟨c', hc', rfl⟩
        rcases List.mem_filter.mp hc' with ⟨hcd, hp⟩
        rcases hmem c' hcd with rfl | hhex
        · simp at hp
        · exact (hexLower_facts c' hhex).2
  | true =>
    cases u with
    | true =>
      have hsdata : (formatID (uuidStringOfBytes [b0, b1, b2, b3, b4, b5, b6, b7, b8, b9, b10, b11, b12, b13, b14, b15]) ⟨true, true⟩).data =
          (uuidStringOfBytes [b0, b1, b2, b3, b4, b5, b6, b7, b8, b9, b10, b11, b12, b13, b14, b15]).data.map Char.toUpper := by
        simp [formatID, hcont]
        rw [if_neg (fun hcond => hcond.1 (mem_of_contains_eq_true hcont))]
      refine ⟨?_, ?_, ?_, ?_, ?_, ?_, ?_⟩
      · show (formatID (uuidStringOfBytes [b0, b1, b2, b3, b4, b5, b6, b7, b8, b9, b10, b11, b12, b13, b14, b15]) ⟨true, true⟩).data.length = 36
        rw [hsdata, List.length_map, uuidStringOfBytes_data]
        rfl
      · rw [hsdata, List.getElem?_map, uuidStringOfBytes_data]
        rfl
      · rw [hsdata, List.getElem?_map, uuidStringOfBytes_data]
        rfl
      · rw [hsdata, List.getElem?_map, uuidStringOfBytes_data]
        rfl
      · rw [hsdata, List.getElem?_map, uuidStringOfBytes_data]
        rfl
      · rw [hsdata, uuidStringOfBytes_data]
        simp [List.filter_cons, upper_toHexChar_beq, upperHyphen]
      · intro c hc
        rw [hsdata] at hc
        rcases List.mem_map.mp hc with ⟨c', hc', rfl⟩
        rcases hmem c' hc' with rfl | hhex
        · exact Or.inl upperHyphen
        · exact Or.inr (hexUpper_facts c' hhex).2
    | false =>
      have hsdata : (formatID (uuidStringOfBytes [b0, b1, b2, b3, b4, b5, b6, b7, b8, b9, b10, b11, b12, b13, b14, b15]) ⟨false, true⟩).data =
          (uuidStringOfBytes [b0, b1, b2, b3, b4, b5, b6, b7, b8, b9, b10, b11, b12, b13, b14, b15]).data.map Char.toLower := by
        simp [formatID, hcont]
        rw [if_neg (fun hcond => hcond.1 (mem_of_contains_eq_true hcont))]
      refine ⟨?_, ?_, ?_, ?_, ?_, ?_, ?_⟩
      · show (formatID (uuidStringOfBytes [b0, b1, b2, b3, b4, b5, b6, b7, b8, b9, b10, b11, b12, b13, b14, b15]) ⟨false, true⟩).data.length = 36
        rw [hsdata, List.length_map, uuidStringOfBytes_data]
        rfl
      · rw [hsdata, List.getElem?_map, uuidStringOfBytes_data]
        rfl
      · rw [hsdata, List.getElem?_map, uuidStringOfBytes_data]
        rfl
      · rw [hsdata, List.getElem?_map, uuidStringOfBytes_data]
        rfl
      · rw [hsdata, List.getElem?_map, uuidStringOfBytes_data]
        rfl
      · rw [hsdata, uuidStringOfBytes_data]
        simp [List.filter_cons, lower_toHexChar_beq, lowerHyphen]
      · intro c hc
        rw [hsdata] at hc
        rcases List.mem_map.mp hc with ⟨c', hc', rfl⟩
        rcases hmem c' hc' with rfl | hhex
        · exact Or.inl lowerHyphen
        · exact Or.inr (hexLower_facts c' hhex).2

theorem ulidUpper_facts : ∀ c ∈ ULID_ENCODING, Char.toUpper c = c ∧ c ≠ '-' := by decide

theorem ulidLower_facts :
    ∀ c ∈ ULID_ENCODING, Char.toLower c ∈ crockfordLower ∧ Char.toLower c ≠ '-' := by decide

theorem ulidRandomFold_length (rnd : Nat → Nat) :
    ((List.range 10).foldl (fun acc i => ulidRandomStep rnd i acc) []).length = 18 := by
  rw [show List.range 10 = [0, 1, 2, 3, 4, 5, 6, 7, 8, 9] from rfl]
  simp [List.foldl_cons, List.foldl_nil, ulidRandomStep]

theorem generateULID_length (t : Nat) (rnd : Nat → Nat) :
    (generateULID t rnd).length = 26 := by
  show ((ulidTimestampChars 10 t) ++
    (((List.range 10).foldl (fun acc i => ulidRandomStep rnd i acc) []).take 16)).length = 26
  rw [List.length_append, ulidTimestampChars_length, List.length_take, ulidRandomFold_length]
  omega

theorem ulidTimestampChars_mem : ∀ (n ts : Nat), ∀ c ∈ ulidTimestampChars n ts,
    ∃ d, c = ulidChar d := by
  intro n
  induction n with
  | zero => intro ts c hc; simp [ulidTimestampChars] at hc
  | succ m ih =>
    intro ts c hc
    rw [ulidTimestampChars] at hc
    rcases List.mem_append.mp hc with h | h
    · exact ih (ts / 32) c h
    · rcases List.mem_singleton.mp h with rfl
      exact ⟨ts % 32, rfl⟩

theorem ulidRandomStep_mem (rnd : Nat → Nat) (i : Nat) (acc : List Char)
    (h : ∀ c ∈ acc, ∃ d, c = ulidChar d) :
    ∀ c ∈ ulidRandomStep rnd i acc, ∃ d, c = ulidChar d := by
  intro c hc
  rw [ulidRandomStep] at hc
  split at hc
  · rcases List.mem_append.mp hc with hcc | hcc
    · rcases List.mem_append.mp hcc with hd | hd
      · exact h c hd
      · rcases List.mem_singleton.mp hd with rfl
        exact ⟨_, rfl⟩
    · rcases List.mem_singleton.mp hcc with rfl
      exact ⟨_, rfl⟩
  · rcases List.mem_append.mp hc with hd | hd
    · exact h c hd
    · rcases List.mem_singleton.mp hd with rfl
      exact ⟨_, rfl⟩

theorem ulidRandomFold_mem (rnd : Nat → Nat) :
    ∀ (l : List Nat) (acc : List Char), (∀ c ∈ acc, ∃ d, c = ulidChar d) →
    ∀ c ∈ List.foldl (fun a i => ulidRandomStep rnd i a) acc l, ∃ d, c = ulidChar d := by
  intro l
  induction l with
  | nil => intro acc h c hc; exact h c hc
  | cons x xs ih =>
    intro acc h c hc
    exact ih (ulidRandomStep rnd x acc) (ulidRandomStep_mem rnd x acc h) c hc

theorem generateULID_mem (t : Nat) (rnd : Nat → Nat) :
    ∀ c ∈ (generateULID t rnd).data, ∃ d, c = ulidChar d := by
  intro c hc
  rw [generateULID_data] at hc
  rcases List.mem_append.mp hc with h | h
  · exact ulidTimestampChars_mem 10 t c h
  · exact ulidRandomFold_mem rnd (List.range 10) [] (by intro c hcc; simp at hcc) c
      (List.mem_of_mem_take h)

/-- C6: for every requested type, count in `[1, 100]` and format options
— with the platform's `crypto.randomUUID` modelled by its contract of
producing canonical byte-derived UUID strings — every UUID returned by
`generateMultiple` is 36 characters with hyphens at 8, 13, 18, 23 when
hyphens are requested and 32 bare hex characters otherwise, and every
ULID returned is 26 characters drawn from the Crockford alphabet (in
the case selected by the uppercase option), never containing a hyphen;
moreover the hyphens option is ignored for ULIDs (same output either
way, no error). -/
theorem generateMultiple_format (type : UUIDType) (count : Int) (options : FormatOptions)
    (clock : Nat → Nat) (entropy : Nat → Nat → Nat) (randomUUID : Nat → String)
    (hc1 : 1 ≤ count) (hc2 : count ≤ 100)
    (hent : ∀ i j, entropy i j < 256)
    (hv4 : ∀ i, ∃ bs : Nat → Nat, (∀ j, bs j < 256) ∧ randomUUID i =
      uuidStringOfBytes [bs 0, bs 1, bs 2, bs 3, bs 4, bs 5, bs 6, bs 7, bs 8, bs 9,
        bs 10, bs 11, bs 12, bs 13, bs 14, bs 15]) :
    (∀ s ∈ generateMultiple type count options clock entropy randomUUID,
      ((type = UUIDType.uuidv4 ∨ type = UUIDType.uuidv7) →
        uuidFormatOK s options.hyphens) ∧
      (type = UUIDType.ulid → ulidFormatOK s options.uppercase)) ∧
    (∀ u : Bool,
      generateMultiple UUIDType.ulid count ⟨u, true⟩ clock entropy randomUUID =
      generateMultiple UUIDType.ulid count ⟨u, false⟩ clock entropy randomUUID) := by
  constructor
  · intro s hs
    rw [generateMultiple] at hs
    rcases List.mem_map.mp hs with ⟨i, _, rfl⟩
    constructor
    · rintro (rfl | rfl)
      · obtain ⟨bs, hbs, heq⟩ := hv4 i
        show uuidFormatOK (formatID (randomUUID i) options) options.hyphens
        rw [heq]
        exact formatID_uuid _ _ _ _ _ _ _ _ _ _ _ _ _ _ _ _
          (hbs 0) (hbs 1) (hbs 2) (hbs 3) (hbs 4) (hbs 5) (hbs 6) (hbs 7) (hbs 8) (hbs 9)
          (hbs 10) (hbs 11) (hbs 12) (hbs 13) (hbs 14) (hbs 15) options
      · show uuidFormatOK (formatID (generateUUIDv7 (clock i) (entropy i)) options)
          options.hyphens
        exact formatID_uuid _ _ _ _ _ _ _ _ _ _ _ _ _ _ _ _
          (by omega) (by omega) (by omega) (by omega) (by omega) (by omega)
          (by have := hent i 6; omega) (hent i 7) (by have := hent i 8; omega)
          (hent i 9) (hent i 10) (hent i 11) (hent i 12) (hent i 13) (hent i 14)
          (hent i 15) options
    · rintro rfl
      obtain ⟨u, hy⟩ := options
      cases u with
      | true =>
        show ulidFormatOK ⟨(generateULID (clock i) (entropy i)).data.map Char.toUpper⟩ true
        refine ⟨?_, ?_, ?_⟩
        · show ((generateULID (clock i) (entropy i)).data.map Char.toUpper).length = 26
          rw [List.length_map]
          exact generateULID_length (clock i) (entropy i)
        · intro h
          rcases List.mem_map.mp h with ⟨c, hc, hfc⟩
          obtain ⟨d, rfl⟩ := generateULID_mem _ _ c hc
          have hfacts := ulidUpper_facts _ (ulidChar_mem d)
          rw [hfacts.1] at hfc
          exact hfacts.2 hfc
        · intro c hc
          rcases List.mem_map.mp hc with ⟨c', hc', rfl⟩
          obtain ⟨d, rfl⟩ := generateULID_mem _ _ c' hc'
          rw [(ulidUpper_facts _ (ulidChar_mem d)).1]
          exact ulidChar_mem d
      | false =>
        show ulidFormatOK ⟨(generateULID (clock i) (entropy i)).data.map Char.toLower⟩ false
        refine ⟨?_, ?_, ?_⟩
        · show ((generateULID (clock i) (entropy i)).data.map Char.toLower).length = 26
          rw [List.length_map]
          exact generateULID_length (clock i) (entropy i)
        · intro h
          rcases List.mem_map.mp h with ⟨c, hc, hfc⟩
          obtain ⟨d, rfl⟩ := generateULID_mem _ _ c hc
          exact (ulidLower_facts _ (ulidChar_mem d)).2 hfc
        · intro c hc
          rcases List.mem_map.mp hc with ⟨c', hc', rfl⟩
          obtain ⟨d, rfl⟩ := generateULID_mem _ _ c' hc'
          exact (ulidLower_facts _ (ulidChar_mem d)).1
  · intro u
    rfl

/-- Witness for C6 with one ULID and one UUID v7 at concrete inputs. -/
theorem generateMultiple_format_witness :
    (1 : Int) ≤ 1 ∧ (1 : Int) ≤ 100 ∧
    (∀ s ∈ generateMultiple UUIDType.ulid 1 ⟨true, true⟩ (fun _ => 0) (fun _ _ => 7)
        (fun _ => uuidStringOfBytes [0, 0, 0, 0, 0, 0, 0, 0, 0, 0, 0, 0, 0, 0, 0, 0]),
      ulidFormatOK s true) ∧
    (∀ s ∈ generateMultiple UUIDType.uuidv7 1 ⟨false, true⟩ (fun _ => 0) (fun _ _ => 7)
        (fun _ => uuidStringOfBytes [0, 0, 0, 0, 0, 0, 0, 0, 0, 0, 0, 0, 0, 0, 0, 0]),
      uuidFormatOK s true) := by
  have hv4 : ∀ i : Nat, ∃ bs : Nat → Nat, (∀ j, bs j < 256) ∧
      (fun (_ : Nat) => uuidStringOfBytes [0, 0, 0, 0, 0, 0, 0, 0, 0, 0, 0, 0, 0, 0, 0, 0]) i =
      uuidStringOfBytes [bs 0, bs 1, bs 2, bs 3, bs 4, bs 5, bs 6, bs 7, bs 8, bs 9,
        bs 10, bs 11, bs 12, bs 13, bs 14, bs 15] :=
    fun _ => ⟨fun _ => 0, fun _ => by norm_num, rfl⟩
  refine ⟨le_refl 1, by norm_num, ?_, ?_⟩
  · intro s hs
    have h := (generateMultiple_format UUIDType.ulid 1 ⟨true, true⟩ (fun _ => 0) (fun _ _ => 7)
      (fun _ => uuidStringOfBytes [0, 0, 0, 0, 0, 0, 0, 0, 0, 0, 0, 0, 0, 0, 0, 0])
      (le_refl 1) (by norm_num) (fun _ _ => by norm_num) hv4).1 s hs
    exact h.2 rfl
  · intro s hs
    have h := (generateMultiple_format UUIDType.uuidv7 1 ⟨false, true⟩ (fun _ => 0) (fun _ _ => 7)
      (fun _ => uuidStringOfBytes [0, 0, 0, 0, 0, 0, 0, 0, 0, 0, 0, 0, 0, 0, 0, 0])
      (le_refl 1) (by norm_num) (fun _ _ => by norm_num) hv4).1 s hs
    exact h.1 (Or.inr rfl)

/-- A closed witness for C9 with libraries that always throw. -/
theorem parseCronExpression_always_answers_witness :
    ((parseCronExpression ⟨fun _ _ => Except.error ("boom"), fun _ => Except.error ("boom"),
        fun _ _ => Except.error ("boom")⟩ ("* * * * *") ⟨none⟩).valid = false ∧
      (parseCronExpression ⟨fun _ _ => Except.error ("boom"), fun _ => Except.error ("boom"),
        fun _ _ => Except.error ("boom")⟩ ("* * * * *") ⟨none⟩).error.isSome = true) := by
  rcases parseCronExpression_always_answers
    ⟨fun _ _ => Except.error ("boom"), fun _ => Except.error ("boom"),
      fun _ _ => Except.error ("boom")⟩ ("* * * * *") ⟨none⟩ with h | h
  · exact absurd h.1 (by decide)
  · exact h

/-! ## Claim C4: builder round trip against the spec-modelled grammar -/

theorem decChars_sep_facts :
    ∀ c ∈ decChars, c ≠ '-' ∧ c ≠ ',' ∧ c ≠ '/' ∧ c ≠ '*' := by decide

theorem natDecimal_ne_sep (n : Nat) :
    ∀ c ∈ (natDecimal n).data, c ≠ '-' ∧ c ≠ ',' ∧ c ≠ '/' ∧ c ≠ '*' :=
  fun c hc => decChars_sep_facts c (natDecimal_mem_decChars n c hc)

theorem acceptsValueToken_natDecimal (f : CronField) (n : Nat)
    (h1 : f.min ≤ n) (h2 : n ≤ f.max) :
    acceptsValueToken f (natDecimal n).data = true := by
  rw [acceptsValueToken, decOf_natDecimal]
  simp [h1, h2]

theorem acceptsRangeToken_natDecimal (f : CronField) (a b : Nat)
    (ha1 : f.min ≤ a) (ha2 : a ≤ f.max) (hb1 : f.min ≤ b) (hb2 : b ≤ f.max) :
    acceptsRangeToken f ((natDecimal a).data ++ '-' :: (natDecimal b).data) = true := by
  rw [acceptsRangeToken,
    splitChar_append '-' _ _ (fun c hc => (natDecimal_ne_sep a c hc).1),
    splitChar_sepFree '-' _ (fun c hc => (natDecimal_ne_sep b c hc).1)]
  simp [acceptsValueToken_natDecimal f a ha1 ha2, acceptsValueToken_natDecimal f b hb1 hb2]

theorem acceptsStepToken_natDecimal (n : Nat) (h : 1 ≤ n) :
    acceptsStepToken (natDecimal n).data = true := by
  rw [acceptsStepToken, decOf_natDecimal]
  simp [h]

theorem splitChar_joinChar (sep : Char) :
    ∀ parts : List (List Char), parts ≠ [] →
    (∀ t ∈ parts, ∀ c ∈ t, c ≠ sep) →
    splitChar sep (joinChar sep parts) = parts := by
  intro parts
  induction parts with
  | nil => intro h _; exact absurd rfl h
  | cons t ts ih =>
    intro _ hfree
    cases ts with
    | nil =>
      have hj : joinChar sep [t] = t := rfl
      rw [hj, splitChar_sepFree sep t (hfree t (List.mem_cons_self _ _))]
    | cons t' ts' =>
      rw [joinChar_cons sep t (t' :: ts') (by simp),
        splitChar_append sep _ _ (hfree t (List.mem_cons_self _ _)),
        ih (by simp) (fun u hu => hfree u (List.mem_cons_of_mem _ hu))]

theorem natDecimal_data_ne_star (n : Nat) : (natDecimal n).data ≠ ['*'] := by
  intro h
  have hmem : '*' ∈ (natDecimal n).data := by rw [h]; simp
  exact (natDecimal_ne_sep n '*' hmem).2.2.2 rfl

theorem contains_false_of_class {l : List Char} {x : Char}
    (h : ∀ c ∈ l, c ≠ x) : ¬(l.contains x = true) := by
  rw [contains_eq_false_of_forall_ne h]
  exact Bool.false_ne_true

theorem acceptsFieldToken_build (f : CronField) (v : FieldValue)
    (hwf : fieldValueWellFormed f v = true) :
    acceptsFieldToken f (buildFieldValueChars v) = true ∧ buildFieldValueChars v ≠ [] := by
  obtain ⟨ty, sp, rs, re, st, lv⟩ := v
  cases ty
  case wildcard =>
    constructor
    · rw [buildFieldValueChars, acceptsFieldToken, if_pos rfl]
    · simp [buildFieldValueChars]
  case specific =>
    simp only [fieldValueWellFormed, decide_eq_true_eq] at hwf
    simp only [buildFieldValueChars]
    refine ⟨?_, natDecimal_data_ne_nil _⟩
    rw [acceptsFieldToken, if_neg (natDecimal_data_ne_star _),
      if_neg (contains_false_of_class (fun c hc => (natDecimal_ne_sep _ c hc).2.1)),
      if_neg (contains_false_of_class (fun c hc => (natDecimal_ne_sep _ c hc).2.2.1)),
      if_neg (contains_false_of_class (fun c hc => (natDecimal_ne_sep _ c hc).1))]
    exact acceptsValueToken_natDecimal f _ hwf.1 hwf.2
  case range =>
    simp only [fieldValueWellFormed, decide_eq_true_eq] at hwf
    simp only [buildFieldValueChars]
    have hclass : ∀ c ∈ (natDecimal (rs.getD 0)).data ++ '-' :: (natDecimal (re.getD 0)).data,
        c = '-' ∨ c ∈ decChars := by
      intro c hc
      rcases List.mem_append.mp hc with h | h
      · exact Or.inr (natDecimal_mem_decChars _ c h)
      · rcases List.mem_cons.mp h with rfl | h
        · exact Or.inl rfl
        · exact Or.inr (natDecimal_mem_decChars _ c h)
    refine ⟨?_, by simp [natDecimal_data_ne_nil]⟩
    rw [acceptsFieldToken,
      if_neg (by
        intro h
        have : '-' ∈ ((natDecimal (rs.getD 0)).data ++ '-' :: (natDecimal (re.getD 0)).data) := by
          simp
        rw [h] at this
        simp at this),
      if_neg (contains_false_of_class (fun c hc => by
        rcases hclass c hc with rfl | hdec
        · decide
        · exact (decChars_sep_facts c hdec).2.1)),
      if_neg (contains_false_of_class (fun c hc => by
        rcases hclass c hc with rfl | hdec
        · decide
        · exact (decChars_sep_facts c hdec).2.2.1)),
      if_pos (by
        rw [contains_eq_true_of_mem (by simp : '-' ∈ (natDecimal (rs.getD 0)).data ++
          '-' :: (natDecimal (re.getD 0)).data)])]
    exact acceptsRangeToken_natDecimal f _ _ hwf.1 hwf.2.1 hwf.2.2.1 hwf.2.2.2
  case list =>
    simp only [fieldValueWellFormed, Bool.and_eq_true, List.all_eq_true,
      decide_eq_true_eq] at hwf
    obtain ⟨hne, hall⟩ := hwf
    simp only [buildFieldValueChars]
    cases hl : lv.getD [] with
    | nil => rw [hl] at hne; simp at hne
    | cons n rest =>
      rw [hl] at hall
      cases rest with
      | nil =>
        have hj : joinChar ',' ([n].map (fun m => (natDecimal m).data)) =
            (natDecimal n).data := rfl
        rw [hj]
        refine ⟨?_, natDecimal_data_ne_nil _⟩
        rw [acceptsFieldToken, if_neg (natDecimal_data_ne_star _),
          if_neg (contains_false_of_class (fun c hc => (natDecimal_ne_sep _ c hc).2.1)),
          if_neg (contains_false_of_class (fun c hc => (natDecimal_ne_sep _ c hc).2.2.1)),
          if_neg (contains_false_of_class (fun c hc => (natDecimal_ne_sep _ c hc).1))]
        exact acceptsValueToken_natDecimal f n (hall n (by simp)).1 (hall n (by simp)).2
      | cons n2 rest2 =>
        have hsplit : splitChar ',' (joinChar ','
            ((n :: n2 :: rest2).map (fun m => (natDecimal m).data))) =
            (n :: n2 :: rest2).map (fun m => (natDecimal m).data) :=
          splitChar_joinChar ',' _ (by simp) (by
            intro t ht c hc
            rcases List.mem_map.mp ht with ⟨m, _, rfl⟩
            exact (natDecimal_ne_sep m c hc).2.1)
        have hcomma : ',' ∈ joinChar ','
            ((n :: n2 :: rest2).map (fun m => (natDecimal m).data)) := by
          rw [List.map_cons, List.map_cons,
            joinChar_cons ',' _ ((natDecimal n2).data :: rest2.map (fun m => (natDecimal m).data))
              (by simp)]
          simp
        constructor
        · rw [acceptsFieldToken,
            if_neg (by
              intro h
              rw [h] at hcomma
              simp at hcomma),
            if_pos (by rw [contains_eq_true_of_mem hcomma]), hsplit]
          rw [List.all_eq_true]
          intro t ht
          rcases List.mem_map.mp ht with ⟨m, hm, rfl⟩
          exact acceptsValueToken_natDecimal f m (hall m hm).1 (hall m hm).2
        · intro h
          rw [h] at hcomma
          simp at hcomma
  case step =>
    simp only [fieldValueWellFormed, decide_eq_true_eq] at hwf
    simp only [buildFieldValueChars]
    refine ⟨?_, by simp⟩
    have hclass : ∀ c ∈ '*' :: '/' :: (natDecimal (st.getD 1)).data,
        c = '*' ∨ c = '/' ∨ c ∈ decChars := by
      intro c hc
      rcases List.mem_cons.mp hc with rfl | hc
      · exact Or.inl rfl
      · rcases List.mem_cons.mp hc with rfl | hc
        · exact Or.inr (Or.inl rfl)
        · exact Or.inr (Or.inr (natDecimal_mem_decChars _ c hc))
    rw [acceptsFieldToken,
      if_neg (by
        intro h
        have : '/' ∈ ('*' :: '/' :: (natDecimal (st.getD 1)).data) := by simp
        rw [h] at this
        simp at this),
      if_neg (contains_false_of_class (fun c hc => by
        rcases hclass c hc with rfl | rfl | hdec
        · decide
        · decide
        · exact (decChars_sep_facts c hdec).2.1)),
      if_pos (by
        rw [contains_eq_true_of_mem
          (by simp : '/' ∈ '*' :: '/' :: (natDecimal (st.getD 1)).data)])]
    have hsplit : splitChar '/' ('*' :: '/' :: (natDecimal (st.getD 1)).data) =
        [['*'], (natDecimal (st.getD 1)).data] := by
      have h1 : ('*' :: '/' :: (natDecimal (st.getD 1)).data) =
          ['*'] ++ '/' :: (natDecimal (st.getD 1)).data := rfl
      rw [h1, splitChar_append '/' _ _ (by intro c hc; simp at hc; rw [hc]; decide),
        splitChar_sepFree '/' _ (fun c hc => (natDecimal_ne_sep _ c hc).2.2.1)]
    rw [hsplit]
    simp [acceptsStepToken_natDecimal _ hwf]
  case rangeStep =>
    simp only [fieldValueWellFormed, decide_eq_true_eq] at hwf
    simp only [buildFieldValueChars]
    have hassoc : (natDecimal (rs.getD 0)).data ++
        '-' :: ((natDecimal (re.getD 0)).data ++ '/' :: (natDecimal (st.getD 1)).data) =
        ((natDecimal (rs.getD 0)).data ++ '-' :: (natDecimal (re.getD 0)).data) ++
          '/' :: (natDecimal (st.getD 1)).data := by
      simp
    rw [hassoc]
    have hclass : ∀ c ∈ ((natDecimal (rs.getD 0)).data ++ '-' :: (natDecimal (re.getD 0)).data) ++
        '/' :: (natDecimal (st.getD 1)).data, c = '-' ∨ c = '/' ∨ c ∈ decChars := by
      intro c hc
      rcases List.mem_append.mp hc with h | h
      · rcases List.mem_append.mp h with h | h
        · exact Or.inr (Or.inr (natDecimal_mem_decChars _ c h))
        · rcases List.mem_cons.mp h with rfl | h
          · exact Or.inl rfl
          · exact Or.inr (Or.inr (natDecimal_mem_decChars _ c h))
      · rcases List.mem_cons.mp h with rfl | h
        · exact Or.inr (Or.inl rfl)
        · exact Or.inr (Or.inr (natDecimal_mem_decChars _ c h))
    refine ⟨?_, by simp [natDecimal_data_ne_nil]⟩
    rw [acceptsFieldToken,
      if_neg (by
        intro h
        have : '/' ∈ ((natDecimal (rs.getD 0)).data ++ '-' :: (natDecimal (re.getD 0)).data) ++
            '/' :: (natDecimal (st.getD 1)).data := by simp
        rw [h] at this
        simp at this),
      if_neg (contains_false_of_class (fun c hc => by
        rcases hclass c hc with rfl | rfl | hdec
        · decide
        · decide
        · exact (decChars_sep_facts c hdec).2.1)),
      if_pos (by
        rw [contains_eq_true_of_mem (by simp :
          '/' ∈ ((natDecimal (rs.getD 0)).data ++ '-' :: (natDecimal (re.getD 0)).data) ++
            '/' :: (natDecimal (st.getD 1)).data)])]
    have hsplit : splitChar '/' (((natDecimal (rs.getD 0)).data ++
        '-' :: (natDecimal (re.getD 0)).data) ++ '/' :: (natDecimal (st.getD 1)).data) =
        [(natDecimal (rs.getD 0)).data ++ '-' :: (natDecimal (re.getD 0)).data,
         (natDecimal (st.getD 1)).data] := by
      rw [splitChar_append '/' _ _ (by
          intro c hc
          rcases List.mem_append.mp hc with h | h
          · exact (natDecimal_ne_sep _ c h).2.2.1
          · rcases List.mem_cons.mp h with rfl | h
            · decide
            · exact (natDecimal_ne_sep _ c h).2.2.1),
        splitChar_sepFree '/' _ (fun c hc => (natDecimal_ne_sep _ c hc).2.2.1)]
    rw [hsplit]
    simp [acceptsRangeToken_natDecimal f _ _ hwf.1 hwf.2.1 hwf.2.2.1 hwf.2.2.2.1,
      acceptsStepToken_natDecimal _ hwf.2.2.2.2]

theorem acceptsFieldToken_star (f : CronField) : acceptsFieldToken f ['*'] = true := by
  rw [acceptsFieldToken, if_pos rfl]

theorem replicate_star_accepts : ∀ fs : List CronField,
    ((List.replicate fs.length ['*']).zip fs).all (fun p => acceptsFieldToken p.2 p.1) = true := by
  intro fs
  induction fs with
  | nil => rfl
  | cons f fs ih =>
    rw [List.length_cons, List.replicate_succ, List.zip_cons_cons, List.all_cons, ih,
      acceptsFieldToken_star]
    rfl

theorem padded_tokens_accept : ∀ (vs : List FieldValue) (fs : List CronField),
    (vs.zip fs).all (fun p => fieldValueWellFormed p.2 p.1) = true →
    vs.length ≤ fs.length →
    ((vs.map buildFieldValueChars ++ List.replicate (fs.length - vs.length) ['*']).zip fs).all
      (fun p => acceptsFieldToken p.2 p.1) = true ∧
    (∀ t ∈ vs.map buildFieldValueChars ++ List.replicate (fs.length - vs.length) ['*'], t ≠ []) ∧
    (vs.map buildFieldValueChars ++ List.replicate (fs.length - vs.length) ['*']).length
      = fs.length := by
  intro vs
  induction vs with
  | nil =>
    intro fs _ _
    refine ⟨?_, ?_, by simp⟩
    · simp only [List.map_nil, List.nil_append, List.length_nil, Nat.sub_zero]
      exact replicate_star_accepts fs
    intro t ht
    simp only [List.map_nil, List.nil_append] at ht
    rw [List.eq_of_mem_replicate ht]
    simp
  | cons v vs ih =>
    intro fs hall hlen
    cases fs with
    | nil => simp at hlen
    | cons f fs' =>
      rw [List.zip_cons_cons, List.all_cons, Bool.and_eq_true] at hall
      obtain ⟨hv, hrest⟩ := hall
      have harith : (f :: fs').length - (v :: vs).length = fs'.length - vs.length := by
        simp [Nat.succ_sub_succ]
      have hlen' : vs.length ≤ fs'.length := by
        simp only [List.length_cons] at hlen
        omega
      obtain ⟨ih1, ih2, ih3⟩ := ih fs' hrest hlen'
      obtain ⟨hb1, hb2⟩ := acceptsFieldToken_build f v hv
      rw [List.map_cons, harith, List.cons_append]
      refine ⟨?_, ?_, ?_⟩
      · rw [List.zip_cons_cons, List.all_cons, Bool.and_eq_true]
        exact ⟨hb1, ih1⟩
      · intro t ht
        rcases List.mem_cons.mp ht with rfl | ht
        · exact hb2
        · exact ih2 t ht
      · rw [List.length_cons, ih3, List.length_cons]

theorem padded_tokens_class (vs : List FieldValue) (k : Nat) :
    ∀ t ∈ vs.map buildFieldValueChars ++ List.replicate k ['*'], ∀ c ∈ t,
      c ∈ decChars ∨ c = '*' ∨ c = '-' ∨ c = ',' ∨ c = '/' := by
  intro t ht c hc
  rcases List.mem_append.mp ht with h | h
  · rcases List.mem_map.mp h with ⟨v, _, rfl⟩
    exact buildFieldValueChars_subset v c hc
  · rw [List.eq_of_mem_replicate h] at hc
    rcases List.mem_singleton.mp hc with rfl
    exact Or.inr (Or.inl rfl)

theorem trim_joinChar (toks : List (List Char)) (hne0 : toks ≠ [])
    (hne : ∀ t ∈ toks, t ≠ [])
    (hws : ∀ t ∈ toks, ∀ c ∈ t, c.isWhitespace = false) :
    jsTrim ⟨joinChar ' ' toks⟩ = ⟨joinChar ' ' toks⟩ := by
  apply jsTrim_of_ends
  · intro c hc
    rcases joinChar_head_mem toks hne0 hne c hc with ⟨t, ht, hct⟩
    exact hws t ht c hct
  · intro c hc
    rcases joinChar_last_mem toks hne0 hne c hc with ⟨t, ht, hct⟩
    exact hws t ht c hct

theorem wsTokens_join_id (toks : List (List Char))
    (hne : ∀ t ∈ toks, t ≠ [])
    (hws : ∀ t ∈ toks, ∀ c ∈ t, c.isWhitespace = false) :
    wsTokens (joinChar ' ' toks) = toks := by
  rw [wsTokens_joinChar toks hws, List.filter_eq_self.mpr]
  intro t ht
  cases t with
  | nil => exact absurd rfl (hne [] ht)
  | cons a t' => rfl

theorem joinChar_join_ne_nil (toks : List (List Char)) (hne0 : toks ≠ [])
    (hne : ∀ t ∈ toks, t ≠ [])
    (hws : ∀ t ∈ toks, ∀ c ∈ t, c.isWhitespace = false) :
    joinChar ' ' toks ≠ [] := by
  intro h
  have hw := wsTokens_join_id toks hne hws
  rw [h] at hw
  have : toks = [] := by
    have hnil : wsTokens [] = [] := rfl
    rw [hnil] at hw
    exact hw.symm
  exact hne0 this

theorem lookupSpecial_none_of_head (key : String)
    (h : ∀ c ∈ key.data.take 1, c ≠ '@') :
    lookupSpecial key = none := by
  have hkey : ∀ t : String, t.data.take 1 = ['@'] → (key == t) = false := by
    intro t ht
    rw [beq_eq_false_iff_ne]
    intro heq
    rw [heq, ht] at h
    exact h '@' (by simp) rfl
  rw [lookupSpecial, SPECIAL_STRINGS]
  simp only [List.lookup, hkey ("@yearly") (by decide), hkey ("@annually") (by decide),
    hkey ("@monthly") (by decide), hkey ("@weekly") (by decide), hkey ("@daily") (by decide),
    hkey ("@midnight") (by decide), hkey ("@hourly") (by decide), hkey ("@reboot") (by decide)]

theorem join_facts (toks : List (List Char)) (hne0 : toks ≠ [])
    (hne : ∀ t ∈ toks, t ≠ [])
    (hclass : ∀ t ∈ toks, ∀ c ∈ t, c ∈ decChars ∨ c = '*' ∨ c = '-' ∨ c = ',' ∨ c = '/') :
    jsTrim ⟨joinChar ' ' toks⟩ = ⟨joinChar ' ' toks⟩ ∧
    ¬((⟨joinChar ' ' toks⟩ : String) = "") ∧
    isSpecialString ⟨joinChar ' ' toks⟩ = false ∧
    ¬(jsToLower ⟨joinChar ' ' toks⟩ = "@reboot") ∧
    wsTokens (joinChar ' ' toks) = toks ∧
    joinChar ' ' toks ≠ [] := by
  have hws : ∀ t ∈ toks, ∀ c ∈ t, c.isWhitespace = false :=
    fun t ht c hc => (tokenChar_facts c (hclass t ht c hc)).1
  have htr : jsTrim ⟨joinChar ' ' toks⟩ = ⟨joinChar ' ' toks⟩ :=
    trim_joinChar toks hne0 hne hws
  have hjne : joinChar ' ' toks ≠ [] := joinChar_join_ne_nil toks hne0 hne hws
  have hsne : ¬((⟨joinChar ' ' toks⟩ : String) = "") := by
    intro h
    exact hjne (congrArg String.data h)
  have hhead : ∀ c ∈ (jsToLower ⟨joinChar ' ' toks⟩).data.take 1, c ≠ '@' := by
    intro c hc
    have hc' : c ∈ ((joinChar ' ' toks).map Char.toLower).take 1 := hc
    rw [← List.map_take] at hc'
    rcases List.mem_map.mp hc' with ⟨c₀, hc₀, rfl⟩
    rcases joinChar_head_mem toks hne0 hne c₀ hc₀ with ⟨t, ht, hct⟩
    exact (tokenChar_facts c₀ (hclass t ht c₀ hct)).2.1
  have hsp : isSpecialString ⟨joinChar ' ' toks⟩ = false := by
    rw [isSpecialString, htr, lookupSpecial_none_of_head _ hhead]
    rfl
  have hnr : ¬(jsToLower ⟨joinChar ' ' toks⟩ = "@reboot") := by
    intro h
    have hd : (joinChar ' ' toks).map Char.toLower = ("@reboot" : String).data :=
      congrArg String.data h
    have hh := congrArg (List.take 1) hd
    rw [show (("@reboot" : String).data.take 1) = ['@'] from by decide,
      ← List.map_take] at hh
    cases hj : joinChar ' ' toks with
    | nil => exact hjne hj
    | cons a rest =>
      rw [hj] at hh
      simp only [List.take_succ_cons, List.take_zero, List.map_cons, List.map_nil] at hh
      have ha : Char.toLower a = '@' := List.head_eq_of_cons_eq hh
      have hmem : a ∈ (joinChar ' ' toks).take 1 := by
        rw [hj]
        simp
      rcases joinChar_head_mem toks hne0 hne a hmem with ⟨t, ht, hct⟩
      exact (tokenChar_facts a (hclass t ht a hct)).2.1 ha
  exact ⟨htr, hsne, hsp, hnr, wsTokens_join_id toks hne hws, hjne⟩


theorem detect_join (toks : List (List Char)) (hne0 : toks ≠ [])
    (hne : ∀ t ∈ toks, t ≠ [])
    (hclass : ∀ t ∈ toks, ∀ c ∈ t, c ∈ decChars ∨ c = '*' ∨ c = '-' ∨ c = ',' ∨ c = '/') :
    detectCronFormat ⟨joinChar ' ' toks⟩ =
      (if toks.length ≥ 6 then CronFormat.sixField else CronFormat.fiveField) := by
  obtain ⟨htr, hsne, hsp, hnr, hwstok, hjne⟩ := join_facts toks hne0 hne hclass
  simp only [detectCronFormat]
  rw [htr, hsp]
  simp only [Bool.false_eq_true, if_false]
  simp only [jsSplitWs]
  have hie : (joinChar ' ' toks).isEmpty = false := by
    cases h : joinChar ' ' toks with
    | nil => exact absurd h hjne
    | cons a l => rfl
  rw [hie]
  simp only [Bool.false_eq_true, if_false]
  rw [hwstok, List.length_map]

theorem grammarValidate_join (toks : List (List Char)) (fs : List CronField)
    (hne0 : toks ≠ [])
    (hne : ∀ t ∈ toks, t ≠ [])
    (hws : ∀ t ∈ toks, ∀ c ∈ t, c.isWhitespace = false)
    (hfs : cronFieldsFor toks.length = fs)
    (hlen : toks.length = fs.length)
    (hacc : (toks.zip fs).all (fun p => acceptsFieldToken p.2 p.1) = true) :
    grammarValidate ⟨joinChar ' ' toks⟩ = true := by
  simp only [grammarValidate]
  rw [trim_joinChar toks hne0 hne hws,
    show ((⟨joinChar ' ' toks⟩ : String).data) = joinChar ' ' toks from rfl,
    wsTokens_join_id toks hne hws, hfs, Bool.and_eq_true]
  refine ⟨?_, hacc⟩
  rw [hlen]
  simp

theorem specLibs_parse_eq (x : String) :
    specLibs.cronParserParse x =
      (if grammarValidate x then Except.ok ()
       else Except.error ("Invalid cron expression: " ++ x)) := rfl

theorem specLibs_cronstrue_eq (x : String) (v : Bool) :
    specLibs.cronstrueToString x v =
      (if grammarValidate x then Except.ok ("Runs on the schedule " ++ jsTrim x ++ ".")
       else Except.error ("Invalid cron expression: " ++ x)) := rfl

theorem specLibs_next_eq (x : String) (n : Nat) :
    specLibs.cronParserNext x n =
      (if grammarValidate x then Except.ok []
       else Except.error ("Invalid cron expression: " ++ x)) := rfl

theorem validateCronExpression_ok (libs : CronLibs) (s : String)
    (htr : jsTrim s = s) (hsne : ¬(s = "")) (hsp : isSpecialString s = false)
    (hP : libs.cronParserParse (if detectCronFormat s = CronFormat.fiveField
        then "0 " ++ s else s) = Except.ok ())
    (hS : ∃ d, libs.cronstrueToString s false = Except.ok d) :
    validateCronExpression libs s = ⟨true, none⟩ := by
  obtain ⟨d, hS⟩ := hS
  simp only [validateCronExpression]
  rw [htr, if_neg hsne, hsp]
  simp only [Bool.false_eq_true, if_false]
  rw [hP, hS]

theorem getCronDescription_ok (libs : CronLibs) (s : String) (d : String)
    (htr : jsTrim s = s) (hsp : isSpecialString s = false)
    (hnr : ¬(jsToLower s = "@reboot"))
    (hS : libs.cronstrueToString s (decide (detectCronFormat s = CronFormat.sixField))
      = Except.ok d) :
    getCronDescription libs s = Except.ok d := by
  simp only [getCronDescription]
  rw [htr, hsp]
  simp only [Bool.false_eq_true, if_false]
  rw [if_neg hnr, hS]

theorem getNextRuns_ok (libs : CronLibs) (s : String) (count : Nat) (r : List Nat)
    (htr : jsTrim s = s) (hsp : isSpecialString s = false)
    (hN : libs.cronParserNext (if detectCronFormat s = CronFormat.fiveField
        then "0 " ++ s else s) count = Except.ok r) :
    getNextRuns libs s count = Except.ok r := by
  simp only [getNextRuns, getNextRunsFromExpression]
  rw [htr, hsp]
  simp only [Bool.false_eq_true, if_false]
  rw [hN]

theorem parseCronExpression_ok (libs : CronLibs) (s : String) (options : ParseOptions)
    (d : String) (r : List Nat)
    (htr : jsTrim s = s) (hsne : ¬(s = ""))
    (hval : validateCronExpression libs s = ⟨true, none⟩)
    (hd : getCronDescription libs s = Except.ok d)
    (hr : getNextRuns libs s (options.nextRunCount.getD 5) = Except.ok r) :
    (parseCronExpression libs s options).valid = true := by
  simp only [parseCronExpression]
  rw [htr, if_neg hsne, hval,
    if_neg (by decide : ¬(((⟨true, none⟩ : ValidationResult)).valid = false)), hd, hr]

theorem parse_valid_core (s : String)
    (htr : jsTrim s = s) (hsne : ¬(s = ""))
    (hsp : isSpecialString s = false)
    (hnr : ¬(jsToLower s = "@reboot"))
    (hG1 : grammarValidate s = true)
    (hGexpr : grammarValidate (if detectCronFormat s = CronFormat.fiveField
        then "0 " ++ s else s) = true)
    (options : ParseOptions) :
    (parseCronExpression specLibs s options).valid = true := by
  have hP : specLibs.cronParserParse (if detectCronFormat s = CronFormat.fiveField
      then "0 " ++ s else s) = Except.ok () := by
    rw [specLibs_parse_eq, hGexpr, if_pos rfl]
  have hS1 : specLibs.cronstrueToString s false
      = Except.ok ("Runs on the schedule " ++ jsTrim s ++ ".") := by
    rw [specLibs_cronstrue_eq, hG1, if_pos rfl]
  have hS2 : specLibs.cronstrueToString s (decide (detectCronFormat s = CronFormat.sixField))
      = Except.ok ("Runs on the schedule " ++ jsTrim s ++ ".") := by
    rw [specLibs_cronstrue_eq, hG1, if_pos rfl]
  have hN : specLibs.cronParserNext (if detectCronFormat s = CronFormat.fiveField
      then "0 " ++ s else s) (options.nextRunCount.getD 5) = Except.ok [] := by
    rw [specLibs_next_eq, hGexpr, if_pos rfl]
  exact parseCronExpression_ok specLibs s options _ []
    htr hsne
    (validateCronExpression_ok specLibs s htr hsne hsp hP ⟨_, hS1⟩)
    (getCronDescription_ok specLibs s _ htr hsp hnr hS2)
    (getNextRuns_ok specLibs s _ _ htr hsp hN)

theorem toks_parse_valid_5 (toks : List (List Char))
    (hlen : toks.length = 5)
    (hne : ∀ t ∈ toks, t ≠ [])
    (hclass : ∀ t ∈ toks, ∀ c ∈ t, c ∈ decChars ∨ c = '*' ∨ c = '-' ∨ c = ',' ∨ c = '/')
    (hacc : (toks.zip CRON_FIELDS_5).all (fun p => acceptsFieldToken p.2 p.1) = true)
    (options : ParseOptions) :
    (parseCronExpression specLibs ⟨joinChar ' ' toks⟩ options).valid = true := by
  have hws : ∀ t ∈ toks, ∀ c ∈ t, c.isWhitespace = false :=
    fun t ht c hc => (tokenChar_facts c (hclass t ht c hc)).1
  have hne0 : toks ≠ [] := by
    intro h
    rw [h] at hlen
    simp at hlen
  obtain ⟨htr, hsne, hsp, hnr, hwstok, hjne⟩ := join_facts toks hne0 hne hclass
  have hdet : detectCronFormat ⟨joinChar ' ' toks⟩ = CronFormat.fiveField := by
    rw [detect_join toks hne0 hne hclass, hlen]
    decide
  have hG1 : grammarValidate ⟨joinChar ' ' toks⟩ = true := by
    apply grammarValidate_join toks CRON_FIELDS_5 hne0 hne hws
    · rw [hlen]
      rfl
    · rw [hlen]
      rfl
    · exact hacc
  have hstr : ("0 " ++ (⟨joinChar ' ' toks⟩ : String)) = ⟨joinChar ' ' (['0'] :: toks)⟩ := by
    have hd : ("0 " ++ (⟨joinChar ' ' toks⟩ : String)).data = joinChar ' ' (['0'] :: toks) := by
      rw [String.data_append, joinChar_cons ' ' ['0'] toks hne0]
      rfl
    calc ("0 " ++ (⟨joinChar ' ' toks⟩ : String))
        = ⟨("0 " ++ (⟨joinChar ' ' toks⟩ : String)).data⟩ := rfl
      _ = ⟨joinChar ' ' (['0'] :: toks)⟩ := congrArg String.mk hd
  have hne' : ∀ t ∈ ['0'] :: toks, t ≠ [] := by
    intro t ht
    rcases List.mem_cons.mp ht with rfl | ht
    · simp
    · exact hne t ht
  have hws' : ∀ t ∈ ['0'] :: toks, ∀ c ∈ t, c.isWhitespace = false := by
    intro t ht c hc
    rcases List.mem_cons.mp ht with rfl | ht
    · rcases List.mem_singleton.mp hc with rfl
      decide
    · exact hws t ht c hc
  have hG2 : grammarValidate ("0 " ++ (⟨joinChar ' ' toks⟩ : String)) = true := by
    rw [hstr]
    apply grammarValidate_join (['0'] :: toks) CRON_FIELDS_6 (by simp) hne' hws'
    · rw [List.length_cons, hlen]
      rfl
    · rw [List.length_cons, hlen]
      rfl
    · simp only [CRON_FIELDS_6, List.zip_cons_cons, List.all_cons, Bool.and_eq_true]
      exact ⟨by decide, hacc⟩
  have hGexpr : grammarValidate (if detectCronFormat (⟨joinChar ' ' toks⟩ : String)
      = CronFormat.fiveField then "0 " ++ (⟨joinChar ' ' toks⟩ : String)
      else (⟨joinChar ' ' toks⟩ : String)) = true := by
    rw [hdet, if_pos rfl]
    exact hG2
  exact parse_valid_core ⟨joinChar ' ' toks⟩ htr hsne hsp hnr hG1 hGexpr options

theorem toks_parse_valid_6 (toks : List (List Char))
    (hlen : toks.length = 6)
    (hne : ∀ t ∈ toks, t ≠ [])
    (hclass : ∀ t ∈ toks, ∀ c ∈ t, c ∈ decChars ∨ c = '*' ∨ c = '-' ∨ c = ',' ∨ c = '/')
    (hacc : (toks.zip CRON_FIELDS_6).all (fun p => acceptsFieldToken p.2 p.1) = true)
    (options : ParseOptions) :
    (parseCronExpression specLibs ⟨joinChar ' ' toks⟩ options).valid = true := by
  have hws : ∀ t ∈ toks, ∀ c ∈ t, c.isWhitespace = false :=
    fun t ht c hc => (tokenChar_facts c (hclass t ht c hc)).1
  have hne0 : toks ≠ [] := by
    intro h
    rw [h] at hlen
    simp at hlen
  obtain ⟨htr, hsne, hsp, hnr, hwstok, hjne⟩ := join_facts toks hne0 hne hclass
  have hdet : detectCronFormat ⟨joinChar ' ' toks⟩ = CronFormat.sixField := by
    rw [detect_join toks hne0 hne hclass, hlen]
    decide
  have hG1 : grammarValidate ⟨joinChar ' ' toks⟩ = true := by
    apply grammarValidate_join toks CRON_FIELDS_6 hne0 hne hws
    · rw [hlen]
      rfl
    · rw [hlen]
      rfl
    · exact hacc
  have hGexpr : grammarValidate (if detectCronFormat (⟨joinChar ' ' toks⟩ : String)
      = CronFormat.fiveField then "0 " ++ (⟨joinChar ' ' toks⟩ : String)
      else (⟨joinChar ' ' toks⟩ : String)) = true := by
    rw [hdet, if_neg (by decide : ¬(CronFormat.sixField = CronFormat.fiveField))]
    exact hG1
  exact parse_valid_core ⟨joinChar ' ' toks⟩ htr hsne hsp hnr hG1 hGexpr options

theorem built_parse_valid_5 (fields : List FieldValue) (options : ParseOptions)
    (hwf : wellFormedFields fields CronFormat.fiveField = true) :
    (parseCronExpression specLibs (buildCronExpression fields CronFormat.fiveField)
      options).valid = true := by
  have hwf' : ((fields.take 5).zip CRON_FIELDS_5).all
      (fun p => fieldValueWellFormed p.2 p.1) = true := hwf
  have hlen5 : (fields.take 5).length ≤ CRON_FIELDS_5.length := by
    rw [List.length_take, show CRON_FIELDS_5.length = 5 from rfl]
    omega
  obtain ⟨hacc, hne, hlen⟩ := padded_tokens_accept (fields.take 5) CRON_FIELDS_5 hwf' hlen5
  have hclass := padded_tokens_class (fields.take 5)
    (CRON_FIELDS_5.length - (fields.take 5).length)
  rw [show CRON_FIELDS_5.length = 5 from rfl] at hacc hne hlen hclass
  rw [show (fields.take 5).length = ((fields.take 5).map buildFieldValueChars).length
    from (List.length_map _ _).symm] at hacc hne hlen hclass
  have hbuild : buildCronExpression fields CronFormat.fiveField =
      ⟨joinChar ' ' ((fields.take 5).map buildFieldValueChars ++
        List.replicate (5 - ((fields.take 5).map buildFieldValueChars).length) ['*'])⟩ := rfl
  rw [hbuild]
  exact toks_parse_valid_5 _ hlen hne hclass hacc options

theorem built_parse_valid_6 (fields : List FieldValue) (options : ParseOptions)
    (hwf : wellFormedFields fields CronFormat.sixField = true) :
    (parseCronExpression specLibs (buildCronExpression fields CronFormat.sixField)
      options).valid = true := by
  have hwf' : ((fields.take 6).zip CRON_FIELDS_6).all
      (fun p => fieldValueWellFormed p.2 p.1) = true := hwf
  have hlen6 : (fields.take 6).length ≤ CRON_FIELDS_6.length := by
    rw [List.length_take, show CRON_FIELDS_6.length = 6 from rfl]
    omega
  obtain ⟨hacc, hne, hlen⟩ := padded_tokens_accept (fields.take 6) CRON_FIELDS_6 hwf' hlen6
  have hclass := padded_tokens_class (fields.take 6)
    (CRON_FIELDS_6.length - (fields.take 6).length)
  rw [show CRON_FIELDS_6.length = 6 from rfl] at hacc hne hlen hclass
  rw [show (fields.take 6).length = ((fields.take 6).map buildFieldValueChars).length
    from (List.length_map _ _).symm] at hacc hne hlen hclass
  have hbuild : buildCronExpression fields CronFormat.sixField =
      ⟨joinChar ' ' ((fields.take 6).map buildFieldValueChars ++
        List.replicate (6 - ((fields.take 6).map buildFieldValueChars).length) ['*'])⟩ := rfl
  rw [hbuild]
  exact toks_parse_valid_6 _ hlen hne hclass hacc options

/-- C4 counterexample: the Builder-producible array whose first entry is a
list value with no `listValues` payload (the route page resets the value to
the bare type on a type switch) serializes to `" * * * *"`, which parses
back as invalid with an error. -/
theorem builder_roundtrip_counterexample :
    buildCronExpression
        ((⟨FieldValueType.list, none, none, none, none, none⟩ : FieldValue) ::
          List.replicate 4 ⟨FieldValueType.wildcard, none, none, none, none, none⟩)
        CronFormat.fiveField = " * * * *" ∧
    (parseCronExpression specLibs (" * * * *") ⟨none⟩).valid = false ∧
    (parseCronExpression specLibs (" * * * *") ⟨none⟩).error.isSome = true :=
  ⟨by decide, by decide, by decide⟩

/-- C4 (amended): the default 5-field values build `"* * * * *"`, and a
built expression re-parses as valid for every field-value array whose
entries are well-formed for their positions (numeric sub-values within the
field's bounds, list values present and nonempty, steps at least 1) — but
not for every Builder-producible array, see the counterexample. -/
theorem builder_roundtrip :
    buildCronExpression (getDefaultFieldValues CronFormat.fiveField) CronFormat.fiveField
      = "* * * * *" ∧
    ∀ (fields : List FieldValue) (format : CronFormat) (options : ParseOptions),
      wellFormedFields fields format = true →
      (parseCronExpression specLibs (buildCronExpression fields format) options).valid
        = true := by
  refine ⟨by decide, ?_⟩
  intro fields format options hwf
  cases format
  · exact built_parse_valid_5 fields options hwf
  · exact built_parse_valid_6 fields options hwf

/-- A closed witness for C4: a concrete well-formed array over all five
value shapes builds `"30 9-17 * 1,6 */2"` and re-parses as valid. -/
theorem builder_roundtrip_witness :
    wellFormedFields
      [⟨FieldValueType.specific, some 30, none, none, none, none⟩,
       ⟨FieldValueType.range, none, some 9, some 17, none, none⟩,
       ⟨FieldValueType.wildcard, none, none, none, none, none⟩,
       ⟨FieldValueType.list, none, none, none, none, some [1, 6]⟩,
       ⟨FieldValueType.step, none, none, none, some 2, none⟩] CronFormat.fiveField = true ∧
    (parseCronExpression specLibs (buildCronExpression
      [⟨FieldValueType.specific, some 30, none, none, none, none⟩,
       ⟨FieldValueType.range, none, some 9, some 17, none, none⟩,
       ⟨FieldValueType.wildcard, none, none, none, none, none⟩,
       ⟨FieldValueType.list, none, none, none, none, some [1, 6]⟩,
       ⟨FieldValueType.step, none, none, none, some 2, none⟩] CronFormat.fiveField)
      ⟨none⟩).valid = true :=
  ⟨by decide, builder_roundtrip.2
    [⟨FieldValueType.specific, some 30, none, none, none, none⟩,
     ⟨FieldValueType.range, none, some 9, some 17, none, none⟩,
     ⟨FieldValueType.wildcard, none, none, none, none, none⟩,
     ⟨FieldValueType.list, none, none, none, none, some [1, 6]⟩,
     ⟨FieldValueType.step, none, none, none, some 2, none⟩] CronFormat.fiveField ⟨none⟩
    (by decide)⟩
